import Mathlib

/-!
Verification of the jumbf-rs JUMBF (ISO/IEC 19566-5) box parser and builder.

This file gives a shallow embedding of the crate's core data model and
operations:

* `DataBox.fromSource` embeds `DataBox::from_source`
  (src/parser/data_box.rs), the box-header decoder over a positioned
  readable+seekable source (modelled as a cursor over a byte list).
* `DataBox.fromSlice` embeds `DataBox::from_slice`, the zero-copy
  slice-based entry point.  Borrowed spans additionally carry the raw
  start address of the slice (a natural number) so that the
  pointer-comparison logic of `offset_within_superbox` can be modelled.
* `DescriptionBox.fromBox` embeds `DescriptionBox::from_box`
  (src/parser/description_box.rs).
* `SuperBox.fromDataBoxWithDepthLimit` embeds
  `SuperBox::from_data_box_with_depth_limit` (src/parser/super_box.rs),
  via a fuel-indexed structurally recursive core (`superCore`) whose fuel
  `data length + 1` is proved sufficient.
* The builder side embeds `DataBoxBuilder`, `PlaceholderDataBox` and the
  top-level framing write (src/builder/*.rs; the framing helper itself is
  absent from the sources and is modelled from the spec).

Bytes are natural numbers (values < 256 wherever the parser produces
them); machine integers of the source are `Nat` with explicit `% 2 ^ 32`
where a truncating cast occurs.
-/

/-- A JUMBF box type: the 4-byte tag (`pub struct BoxType(pub [u8; 4])`).
The `box_type.rs` module is absent from the sources; the type itself is an
opaque 4-byte identifier compared by exact byte equality. -/
structure BoxType where
  bytes : List Nat
deriving DecidableEq, Repr

/-- `jumb`, the superbox type tag (hex 6a 75 6d 62). -/
def SUPER_BOX_TYPE : BoxType := ⟨[0x6a, 0x75, 0x6d, 0x62]⟩

/-- `jumd`, the description-box type tag (hex 6a 75 6d 64). -/
def DESCRIPTION_BOX_TYPE : BoxType := ⟨[0x6a, 0x75, 0x6d, 0x64]⟩

/-- The crate's `parser::Error` taxonomy (module `error.rs` is absent from
the sources; the variants and payloads are those used throughout the
parser code and described in the spec's error-handling section). -/
inductive Err where
  | InvalidBoxLength (n : Nat)
  | InvalidDescriptionBoxType (t : BoxType)
  | InvalidSuperBoxType (t : BoxType)
  | Incomplete (n : Nat)
  | Utf8Error
  | IoError (msg : String)
deriving DecidableEq, Repr

instance exceptDecEq {ε α : Type} [DecidableEq ε] [DecidableEq α] :
    DecidableEq (Except ε α) := fun a b =>
  match a, b with
  | .error e, .error f =>
    if h : e = f then isTrue (congrArg Except.error h)
    else isFalse (fun hh => h (Except.error.inj hh))
  | .error _, .ok _ => isFalse (fun hh => Except.noConfusion hh)
  | .ok _, .error _ => isFalse (fun hh => Except.noConfusion hh)
  | .ok a, .ok b =>
    if h : a = b then isTrue (congrArg Except.ok h)
    else isFalse (fun hh => h (Except.ok.inj hh))

/-- `InputData<'a, R>`: either a borrowed in-memory slice (modelled with
its raw start address and its bytes) or a lazy reference into a reader
(offset + length), per src/parser/input_data.rs. -/
inductive InputData where
  | borrowed (addr : Nat) (bytes : List Nat)
  | lazy (offset : Nat) (len : Nat)
deriving DecidableEq, Repr

/-- `InputData::len()`: length without reading data. -/
def InputData.len : InputData → Nat
  | .borrowed _ b => b.length
  | .lazy _ n => n

/-- Bytes of a borrowed `InputData` (`as_slice()`; empty for lazy data,
which the slice-only code paths never receive). -/
def InputData.sliceBytes : InputData → List Nat
  | .borrowed _ b => b
  | .lazy _ _ => []

/-- Raw start address of a borrowed `InputData` (offset for lazy data). -/
def InputData.baseAddr : InputData → Nat
  | .borrowed a _ => a
  | .lazy o _ => o

/-- `u32::from_be_bytes` / `read_be32`: big-endian accumulation. -/
def be32 (l : List Nat) : Nat := l.foldl (fun acc b => acc * 256 + b) 0

/-- `u64::from_be_bytes` / `read_be64`: big-endian accumulation (the same
fold; the distinction is only the buffer width at the call site). -/
def be64 (l : List Nat) : Nat := l.foldl (fun acc b => acc * 256 + b) 0

/-- `u32::to_be_bytes`: the four big-endian bytes of `n` (`n < 2^32`). -/
def toBe32 (n : Nat) : List Nat :=
  [n / 16777216 % 256, n / 65536 % 256, n / 256 % 256, n % 256]

/-- A positioned byte source: `Cursor`-like state over an in-memory byte
sequence (`std::io::Cursor`, and equally a seekable reader).  `pos` may
lie beyond `data.length` (seeking past the end succeeds; reads there
fail). -/
structure ByteSource where
  data : List Nat
  pos : Nat
deriving DecidableEq, Repr

/-- `read_exact` on a cursor: yields the next `n` bytes and advances, or
fails when fewer than `n` bytes remain. -/
def readExact (s : ByteSource) (n : Nat) : Option (List Nat × ByteSource) :=
  if s.pos + n ≤ s.data.length then
    some ((s.data.drop s.pos).take n, ⟨s.data, s.pos + n⟩)
  else
    none

/-- The span data computed by `DataBox::from_source` before the
caller-supplied `create_input_data` constructor is applied: the box type
plus the (offset, length) pairs passed for the payload span and the
original span. -/
structure ParsedBox where
  tbox : BoxType
  dataOff : Nat
  dataLen : Nat
  origOff : Nat
  origLen : Nat
deriving DecidableEq, Repr

/-- `DataBox::from_source` (src/parser/data_box.rs lines 78–137): read the
4-byte big-endian length `L` and the 4-byte type; branch on `L`
(`0` = read to end of stream, `1` = 8-byte extended length `XL` with
`XL < 16` rejected, `2..=7` rejected, otherwise payload `L - 8`); then
seek to `start + original_len`.  `xl as u32` in the error payload is the
truncating cast, hence `% 2 ^ 32`. -/
def DataBox.fromSource (s : ByteSource) : Except Err (ParsedBox × ByteSource) :=
  let start := s.pos
  match readExact s 4 with
  | none => .error (.IoError "failed to fill whole buffer")
  | some (lenBuf, s1) =>
    let len := be32 lenBuf
    match readExact s1 4 with
    | none => .error (.IoError "failed to fill whole buffer")
    | some (tboxBuf, s2) =>
      let tbox : BoxType := ⟨tboxBuf⟩
      if len = 0 then
        -- Read to end of stream.
        let current := s2.pos
        let e := s2.data.length
        .ok (⟨tbox, current, e - current, start, e - start⟩, ⟨s2.data, start + (e - start)⟩)
      else if len = 1 then
        -- Extended length: read 8-byte length field.
        match readExact s2 8 with
        | none => .error (.IoError "failed to fill whole buffer")
        | some (xlBuf, s3) =>
          let xl := be64 xlBuf
          if xl < 16 then .error (.InvalidBoxLength (xl % 2 ^ 32))
          else
            let current := s3.pos
            .ok (⟨tbox, current, xl - 16, start, xl⟩, ⟨s3.data, start + xl⟩)
      else if len ≤ 7 then
        .error (.InvalidBoxLength len)
      else
        let current := s2.pos
        .ok (⟨tbox, current, len - 8, start, len⟩, ⟨s2.data, start + len⟩)

/-- `DataBox`: a single JUMBF box — type tag, payload span, original
(header + payload) span. -/
structure DataBox where
  tbox : BoxType
  data : InputData
  original : InputData
deriving DecidableEq, Repr

/-- The span constructor passed by `DataBox::from_slice`: a borrowed
sub-slice of the input when in bounds, otherwise `Borrowed(&[])` (the
error is caught by the position check afterwards).  `a` is the raw
address of the input slice's first byte. -/
def mkBorrowed (a : Nat) (input : List Nat) (off len : Nat) : InputData :=
  if off + len ≤ input.length then .borrowed (a + off) ((input.drop off).take len)
  else .borrowed 0 []

/-- `DataBox::from_slice` (src/parser/data_box.rs lines 146–171): run
`from_source` on a fresh cursor over the input, build borrowed spans,
fail if the consumed size exceeds the input, and return the box together
with the unconsumed remainder. -/
def DataBox.fromSlice (a : Nat) (original : List Nat) :
    Except Err (DataBox × List Nat) :=
  match DataBox.fromSource ⟨original, 0⟩ with
  | .error e => .error e
  | .ok (pb, cur) =>
    let dataBox : DataBox :=
      ⟨pb.tbox, mkBorrowed a original pb.dataOff pb.dataLen,
        mkBorrowed a original pb.origOff pb.origLen⟩
    if cur.pos > original.length then
      .error (.IoError "Box size exceeds available data")
    else
      .ok (dataBox, original.drop cur.pos)

/-- `DataBox::from_reader` (src/parser/data_box.rs lines 241–247): run
`from_source` directly on the shared reader, building lazy spans. -/
def DataBox.fromReader (s : ByteSource) : Except Err (DataBox × ByteSource) :=
  match DataBox.fromSource s with
  | .error e => .error e
  | .ok (pb, s') =>
    .ok (⟨pb.tbox, .lazy pb.dataOff pb.dataLen, .lazy pb.origOff pb.origLen⟩, s')

/-! ### Characterization of the header decoder -/

/-- Characterization of a successful `from_source` run: spans and final
position, by cases on the length field. -/
theorem fromSource_ok_spans (s : ByteSource) (pb : ParsedBox) (s' : ByteSource)
    (h : DataBox.fromSource s = .ok (pb, s')) :
    s'.data = s.data ∧
    s'.pos = s.pos + pb.origLen ∧
    pb.origOff = s.pos ∧
    s.pos + 8 ≤ s.data.length ∧
    pb.tbox = ⟨(s.data.drop (s.pos + 4)).take 4⟩ ∧
    (be32 ((s.data.drop s.pos).take 4) = 0 →
      pb.dataOff = s.pos + 8 ∧ pb.dataLen = s.data.length - (s.pos + 8) ∧
      pb.origLen = s.data.length - s.pos) ∧
    (be32 ((s.data.drop s.pos).take 4) = 1 →
      s.pos + 16 ≤ s.data.length ∧
      16 ≤ be64 ((s.data.drop (s.pos + 8)).take 8) ∧ pb.dataOff = s.pos + 16 ∧
      pb.dataLen = be64 ((s.data.drop (s.pos + 8)).take 8) - 16 ∧
      pb.origLen = be64 ((s.data.drop (s.pos + 8)).take 8)) ∧
    (8 ≤ be32 ((s.data.drop s.pos).take 4) →
      pb.dataOff = s.pos + 8 ∧ pb.dataLen = be32 ((s.data.drop s.pos).take 4) - 8 ∧
      pb.origLen = be32 ((s.data.drop s.pos).take 4)) ∧
    (be32 ((s.data.drop s.pos).take 4) = 0 ∨ be32 ((s.data.drop s.pos).take 4) = 1 ∨
      8 ≤ be32 ((s.data.drop s.pos).take 4)) := by
  unfold DataBox.fromSource readExact at h
  by_cases h4 : s.pos + 4 ≤ s.data.length
  swap
  · simp [h4] at h
  simp only [if_pos h4] at h
  by_cases h44 : s.pos + 4 + 4 ≤ s.data.length
  swap
  · simp [h44] at h
  simp only [if_pos h44] at h
  have h8 : s.pos + 8 ≤ s.data.length := by omega
  have e44 : s.pos + 4 + 4 = s.pos + 8 := by omega
  rw [e44] at h
  by_cases hL0 : be32 ((s.data.drop s.pos).take 4) = 0
  · simp only [hL0, if_true, reduceIte, Except.ok.injEq, Prod.mk.injEq] at h
    obtain ⟨hpb, hs'⟩ := h
    subst hpb
    subst hs'
    refine ⟨rfl, rfl, rfl, h8, rfl, ?_, ?_, ?_, ?_⟩ <;> simp_all <;> omega
  by_cases hL1 : be32 ((s.data.drop s.pos).take 4) = 1
  · simp only [hL0, hL1, if_false, if_true, reduceIte] at h
    by_cases h16 : s.pos + 8 + 8 ≤ s.data.length
    swap
    · simp [h16] at h
    simp only [if_pos h16] at h
    by_cases hxl : be64 ((s.data.drop (s.pos + 8)).take 8) < 16
    · simp [hxl] at h
    simp only [if_neg hxl, show ¬(1 : Nat) = 0 by omega, if_false, reduceIte,
      Except.ok.injEq, Prod.mk.injEq] at h
    obtain ⟨hpb, hs'⟩ := h
    subst hpb
    subst hs'
    refine ⟨rfl, rfl, rfl, h8, rfl, ?_, ?_, ?_, ?_⟩ <;> simp_all <;> omega
  by_cases hle7 : be32 ((s.data.drop s.pos).take 4) ≤ 7
  · simp [hL0, hL1, hle7] at h
  · simp only [hL0, hL1, hle7, if_false, reduceIte, Except.ok.injEq, Prod.mk.injEq] at h
    obtain ⟨hpb, hs'⟩ := h
    subst hpb
    subst hs'
    refine ⟨rfl, rfl, rfl, h8, rfl, ?_, ?_, ?_, ?_⟩ <;> simp_all <;> omega

/-- Computation of `from_source` when the length field is at least 8. -/
theorem fromSource_big (s : ByteSource) (h8 : s.pos + 8 ≤ s.data.length)
    (hL : 8 ≤ be32 ((s.data.drop s.pos).take 4)) :
    DataBox.fromSource s =
      .ok (⟨⟨(s.data.drop (s.pos + 4)).take 4⟩, s.pos + 4 + 4,
            be32 ((s.data.drop s.pos).take 4) - 8, s.pos,
            be32 ((s.data.drop s.pos).take 4)⟩,
           ⟨s.data, s.pos + be32 ((s.data.drop s.pos).take 4)⟩) := by
  unfold DataBox.fromSource readExact
  simp only [show s.pos + 4 ≤ s.data.length by omega, if_pos,
    show s.pos + 4 + 4 ≤ s.data.length by omega,
    show ¬be32 ((s.data.drop s.pos).take 4) = 0 by omega,
    show ¬be32 ((s.data.drop s.pos).take 4) = 1 by omega,
    show ¬be32 ((s.data.drop s.pos).take 4) ≤ 7 by omega,
    if_false, reduceIte]

/-- Computation of `from_source` in the extended-length case with a legal
extended length. -/
theorem fromSource_xlbox (s : ByteSource) (h16 : s.pos + 16 ≤ s.data.length)
    (hL1 : be32 ((s.data.drop s.pos).take 4) = 1)
    (hxl : 16 ≤ be64 ((s.data.drop (s.pos + 8)).take 8)) :
    DataBox.fromSource s =
      .ok (⟨⟨(s.data.drop (s.pos + 4)).take 4⟩, s.pos + 8 + 8,
            be64 ((s.data.drop (s.pos + 8)).take 8) - 16, s.pos,
            be64 ((s.data.drop (s.pos + 8)).take 8)⟩,
           ⟨s.data, s.pos + be64 ((s.data.drop (s.pos + 8)).take 8)⟩) := by
  unfold DataBox.fromSource readExact
  have e44 : s.pos + 4 + 4 = s.pos + 8 := by omega
  simp only [show s.pos + 4 ≤ s.data.length by omega, if_pos,
    show s.pos + 4 + 4 ≤ s.data.length by omega, e44,
    show ¬be32 ((s.data.drop s.pos).take 4) = 0 by omega, hL1,
    show s.pos + 8 + 8 ≤ s.data.length by omega,
    show ¬be64 ((s.data.drop (s.pos + 8)).take 8) < 16 by omega,
    show ¬(1 : Nat) = 0 by omega,
    if_false, reduceIte, if_true]

/-- **C1.** For every positioned byte source, a successful `DataBox` parse
(`from_slice` and `from_reader` both delegate to `from_source`) consumes
exactly one box and computes its spans by branching on the 4-byte
big-endian length field `L`: `L = 0` reads to end of stream with total
length (end − start); `L = 1` reads an 8-byte big-endian `XL` and yields
payload `XL − 16`, total `XL`; `L ≥ 8` yields payload `L − 8`, total `L`;
and in every successful case the source is left positioned at
`start + original length`. -/
theorem claim1_header_decoder_spans (s : ByteSource) (pb : ParsedBox)
    (s' : ByteSource) (h : DataBox.fromSource s = .ok (pb, s')) :
    s'.data = s.data ∧
    s'.pos = s.pos + pb.origLen ∧
    pb.origOff = s.pos ∧
    (be32 ((s.data.drop s.pos).take 4) = 0 →
      pb.dataOff = s.pos + 8 ∧ pb.dataLen = s.data.length - (s.pos + 8) ∧
      pb.origLen = s.data.length - s.pos) ∧
    (be32 ((s.data.drop s.pos).take 4) = 1 →
      16 ≤ be64 ((s.data.drop (s.pos + 8)).take 8) ∧
      pb.dataLen = be64 ((s.data.drop (s.pos + 8)).take 8) - 16 ∧
      pb.origLen = be64 ((s.data.drop (s.pos + 8)).take 8)) ∧
    (8 ≤ be32 ((s.data.drop s.pos).take 4) →
      pb.dataLen = be32 ((s.data.drop s.pos).take 4) - 8 ∧
      pb.origLen = be32 ((s.data.drop s.pos).take 4)) := by
  obtain ⟨h1, h2, h3, -, -, h5, h6, h7, -⟩ := fromSource_ok_spans s pb s' h
  exact ⟨h1, h2, h3, h5,
    fun hx => ⟨(h6 hx).2.1, (h6 hx).2.2.2.1, (h6 hx).2.2.2.2⟩,
    fun hx => ⟨(h7 hx).2.1, (h7 hx).2.2⟩⟩

/-- An extended-length (`L = 1`, `XL = 46`) description box: the 46-byte
input of the `read_xlbox_size` test. -/
def c1ExampleBytes : List Nat :=
  [0x00, 0x00, 0x00, 0x01, 0x6a, 0x75, 0x6d, 0x64,
   0x00, 0x00, 0x00, 0x00, 0x00, 0x00, 0x00, 0x2e,
   0, 0, 0, 0, 0, 0, 0, 0, 0, 0, 0, 0, 0, 0, 0, 0,
   0x03,
   0x74, 0x65, 0x73, 0x74, 0x2e, 0x64, 0x65, 0x73, 0x63, 0x62, 0x6f, 0x78, 0x00]

theorem claim1_header_decoder_spans_witness :
    DataBox.fromSource ⟨c1ExampleBytes, 0⟩ =
      .ok (⟨DESCRIPTION_BOX_TYPE, 16, 30, 0, 46⟩, ⟨c1ExampleBytes, 46⟩) ∧
    ((⟨c1ExampleBytes, 46⟩ : ByteSource).data = c1ExampleBytes ∧
     (⟨c1ExampleBytes, 46⟩ : ByteSource).pos = 0 + (46 : Nat) ∧
     (0 : Nat) = 0 ∧
     (be32 ((c1ExampleBytes.drop 0).take 4) = 0 →
       (16 : Nat) = 0 + 8 ∧ (30 : Nat) = c1ExampleBytes.length - (0 + 8) ∧
       (46 : Nat) = c1ExampleBytes.length - 0) ∧
     (be32 ((c1ExampleBytes.drop 0).take 4) = 1 →
       16 ≤ be64 ((c1ExampleBytes.drop (0 + 8)).take 8) ∧
       (30 : Nat) = be64 ((c1ExampleBytes.drop (0 + 8)).take 8) - 16 ∧
       (46 : Nat) = be64 ((c1ExampleBytes.drop (0 + 8)).take 8)) ∧
     (8 ≤ be32 ((c1ExampleBytes.drop 0).take 4) →
       (30 : Nat) = be32 ((c1ExampleBytes.drop 0).take 4) - 8 ∧
       (46 : Nat) = be32 ((c1ExampleBytes.drop 0).take 4))) := by
  refine ⟨by decide, ?_⟩
  exact claim1_header_decoder_spans ⟨c1ExampleBytes, 0⟩
    ⟨DESCRIPTION_BOX_TYPE, 16, 30, 0, 46⟩ ⟨c1ExampleBytes, 46⟩ (by decide)

/-- **C2.** `DataBox` parsing fails with `InvalidBoxLength(L)` whenever the
4-byte length field `L` lies in `2..=7`, and with `InvalidBoxLength(XL)`
whenever `L = 1` and the 8-byte extended length `XL` is below 16 —
regardless of the bytes that follow. -/
theorem claim2_invalid_box_length (s : ByteSource)
    (h8 : s.pos + 8 ≤ s.data.length) :
    (2 ≤ be32 ((s.data.drop s.pos).take 4) →
      be32 ((s.data.drop s.pos).take 4) ≤ 7 →
      DataBox.fromSource s =
        .error (.InvalidBoxLength (be32 ((s.data.drop s.pos).take 4)))) ∧
    (be32 ((s.data.drop s.pos).take 4) = 1 → s.pos + 16 ≤ s.data.length →
      be64 ((s.data.drop (s.pos + 8)).take 8) < 16 →
      DataBox.fromSource s =
        .error (.InvalidBoxLength (be64 ((s.data.drop (s.pos + 8)).take 8)))) := by
  constructor
  · intro h2 h7
    unfold DataBox.fromSource readExact
    simp only [show s.pos + 4 ≤ s.data.length by omega, if_pos,
      show s.pos + 4 + 4 ≤ s.data.length by omega,
      show ¬be32 ((s.data.drop s.pos).take 4) = 0 by omega,
      show ¬be32 ((s.data.drop s.pos).take 4) = 1 by omega,
      h7, if_false, reduceIte, if_true]
  · intro hL1 h16 hxl
    unfold DataBox.fromSource readExact
    have e44 : s.pos + 4 + 4 = s.pos + 8 := by omega
    have hmod : be64 ((s.data.drop (s.pos + 8)).take 8) % 2 ^ 32 =
        be64 ((s.data.drop (s.pos + 8)).take 8) := Nat.mod_eq_of_lt (by omega)
    simp only [show s.pos + 4 ≤ s.data.length by omega, if_pos,
      show s.pos + 4 + 4 ≤ s.data.length by omega, e44,
      show ¬be32 ((s.data.drop s.pos).take 4) = 0 by omega, hL1,
      show s.pos + 8 + 8 ≤ s.data.length by omega, hxl,
      show ¬(1 : Nat) = 0 by omega,
      if_false, reduceIte, if_true, hmod]

theorem claim2_invalid_box_length_witness :
    DataBox.fromSource ⟨[0, 0, 0, 2, 0x6a, 0x75, 0x6d, 0x62], 0⟩ =
      .error (.InvalidBoxLength 2) ∧
    DataBox.fromSource
        ⟨[0, 0, 0, 1, 0x6a, 0x75, 0x6d, 0x64, 0, 0, 0, 0, 0, 0, 0, 14], 0⟩ =
      .error (.InvalidBoxLength 14) := by
  exact ⟨(claim2_invalid_box_length ⟨[0, 0, 0, 2, 0x6a, 0x75, 0x6d, 0x62], 0⟩
            (by decide)).1 (by decide) (by decide),
         (claim2_invalid_box_length
            ⟨[0, 0, 0, 1, 0x6a, 0x75, 0x6d, 0x64, 0, 0, 0, 0, 0, 0, 0, 14], 0⟩
            (by decide)).2 (by decide) (by decide) (by decide)⟩

/-- Packaging of the two spans built by `from_slice` when the consumed
region is in bounds. -/
theorem mkBorrowed_spans (a : Nat) (input : List Nat) (pb : ParsedBox)
    (hdr : Nat) (hOrig : pb.origOff = 0) (hOff : pb.dataOff = hdr)
    (hLen : pb.dataLen = pb.origLen - hdr) (hhdr : hdr ≤ pb.origLen)
    (hle : pb.origLen ≤ input.length) :
    mkBorrowed a input pb.origOff pb.origLen = .borrowed a (input.take pb.origLen) ∧
    mkBorrowed a input pb.dataOff pb.dataLen =
      .borrowed (a + hdr) ((input.drop hdr).take (pb.origLen - hdr)) ∧
    (mkBorrowed a input pb.origOff pb.origLen).len =
      (mkBorrowed a input pb.dataOff pb.dataLen).len + hdr := by
  have e1 : mkBorrowed a input pb.origOff pb.origLen =
      .borrowed a (input.take pb.origLen) := by
    rw [hOrig]
    unfold mkBorrowed
    rw [if_pos (by omega)]
    simp
  have e2 : mkBorrowed a input pb.dataOff pb.dataLen =
      .borrowed (a + hdr) ((input.drop hdr).take (pb.origLen - hdr)) := by
    rw [hOff, hLen]
    unfold mkBorrowed
    rw [if_pos (by omega)]
  refine ⟨e1, e2, ?_⟩
  rw [e1, e2]
  simp only [InputData.len, List.length_take, List.length_drop]
  omega

/-- **C10.** On every successful `from_slice` the returned spans are
in-bounds sub-slices of the input related by header arithmetic (payload
starting 8 — or 16 in the extended form — bytes into the consumed region,
original length = payload length + header size, remainder = the suffix
after the consumed region); and a declared box size running past the end
of the input is an error, never an out-of-range span. -/
theorem claim10_fromSlice_span_invariants (a : Nat) (input : List Nat) :
    (∀ db rem, DataBox.fromSlice a input = .ok (db, rem) →
      ∃ hdr consumed, (hdr = 8 ∨ hdr = 16) ∧ hdr ≤ consumed ∧
        consumed ≤ input.length ∧
        db.original = .borrowed a (input.take consumed) ∧
        db.data = .borrowed (a + hdr) ((input.drop hdr).take (consumed - hdr)) ∧
        db.original.len = db.data.len + hdr ∧
        rem = input.drop consumed ∧
        (hdr = 16 ↔ be32 (input.take 4) = 1)) ∧
    (8 ≤ input.length →
      (8 ≤ be32 (input.take 4) → input.length < be32 (input.take 4) →
        DataBox.fromSlice a input =
          .error (.IoError "Box size exceeds available data")) ∧
      (be32 (input.take 4) = 1 → 16 ≤ input.length →
        16 ≤ be64 ((input.drop 8).take 8) →
        input.length < be64 ((input.drop 8).take 8) →
        DataBox.fromSlice a input =
          .error (.IoError "Box size exceeds available data"))) := by
  constructor
  · intro db rem h
    unfold DataBox.fromSlice at h
    split at h
    · exact absurd h (by simp)
    next pb cur heq =>
      split at h
      · exact absurd h (by simp)
      next hpos =>
        simp only [Except.ok.injEq, Prod.mk.injEq] at h
        obtain ⟨hdb, hrem⟩ := h
        subst hdb
        subst hrem
        obtain ⟨-, h2, h3, h4, -, h6, h7, h8, hcases⟩ :=
          fromSource_ok_spans ⟨input, 0⟩ pb cur heq
        simp only [List.drop_zero] at h6 h7 h8 h2 h3 h4 hcases
        have hposle : pb.origLen ≤ input.length := by omega
        rcases hcases with hL0 | hL1 | hL8
        · obtain ⟨hdOff, hdLen, hoLen⟩ := h6 hL0
          obtain ⟨e1, e2, e3⟩ := mkBorrowed_spans a input pb 8 h3
            (by omega) (by omega) (by omega) hposle
          exact ⟨8, pb.origLen, .inl rfl, by omega, hposle, e1, e2, e3,
            by rw [h2, Nat.zero_add],
            by constructor <;> intro hx <;> omega⟩
        · obtain ⟨-, hxl, hdOff, hdLen, hoLen⟩ := h7 hL1
          obtain ⟨e1, e2, e3⟩ := mkBorrowed_spans a input pb 16 h3
            (by omega) (by omega) (by omega) hposle
          exact ⟨16, pb.origLen, .inr rfl, by omega, hposle, e1, e2, e3,
            by rw [h2, Nat.zero_add],
            by constructor <;> intro hx <;> omega⟩
        · obtain ⟨hdOff, hdLen, hoLen⟩ := h8 hL8
          obtain ⟨e1, e2, e3⟩ := mkBorrowed_spans a input pb 8 h3
            (by omega) (by omega) (by omega) hposle
          exact ⟨8, pb.origLen, .inl rfl, by omega, hposle, e1, e2, e3,
            by rw [h2, Nat.zero_add],
            by constructor <;> intro hx <;> omega⟩
  · intro h8len
    constructor
    · intro hL8 hgt
      unfold DataBox.fromSlice
      rw [fromSource_big ⟨input, 0⟩ (by simpa using h8len)
        (by simpa using hL8)]
      simp only [List.drop_zero]
      rw [if_pos (by simp; omega)]
    · intro hL1 h16len hxlge hxlgt
      unfold DataBox.fromSlice
      rw [fromSource_xlbox ⟨input, 0⟩ (by simpa using h16len)
        (by simpa using hL1) (by simpa using hxlge)]
      simp only [List.drop_zero]
      rw [if_pos (by simp; omega)]

theorem claim10_fromSlice_span_invariants_witness :
    (∃ hdr consumed, (hdr = 8 ∨ hdr = 16) ∧ hdr ≤ consumed ∧
      consumed ≤ c1ExampleBytes.length ∧
      (InputData.borrowed 7 (c1ExampleBytes.take 46)) =
        .borrowed 7 (c1ExampleBytes.take consumed) ∧
      (InputData.borrowed 23 ((c1ExampleBytes.drop 16).take 30)) =
        .borrowed (7 + hdr) ((c1ExampleBytes.drop hdr).take (consumed - hdr)) ∧
      (InputData.borrowed 7 (c1ExampleBytes.take 46)).len =
        (InputData.borrowed 23 ((c1ExampleBytes.drop 16).take 30)).len + hdr ∧
      ([] : List Nat) = c1ExampleBytes.drop consumed ∧
      (hdr = 16 ↔ be32 (c1ExampleBytes.take 4) = 1)) ∧
    DataBox.fromSlice 0 [0, 0, 1, 0, 0x75, 0x75, 0x69, 0x64] =
      .error (.IoError "Box size exceeds available data") := by
  constructor
  · exact (claim10_fromSlice_span_invariants 7 c1ExampleBytes).1
      ⟨DESCRIPTION_BOX_TYPE, .borrowed 23 ((c1ExampleBytes.drop 16).take 30),
        .borrowed 7 (c1ExampleBytes.take 46)⟩ [] (by decide)
  · exact ((claim10_fromSlice_span_invariants 0
      [0, 0, 1, 0, 0x75, 0x75, 0x69, 0x64]).2 (by decide)).1 (by decide) (by decide)

/-! ### Description box decoder -/

/-- Toggle-bit test: the constants of the (absent) `toggles.rs` module are
`REQUESTABLE = 0x01`, `HAS_LABEL = 0x02`, `HAS_ID = 0x04`,
`HAS_HASH = 0x08`, `HAS_PRIVATE_BOX = 0x10`; `toggles & mask != 0` is
`Nat.testBit` of the corresponding bit. -/
def hasToggle (toggles bit : Nat) : Bool := toggles.testBit bit

/-- UTF-8 validity of a byte sequence, as checked by
`std::str::from_utf8` (RFC 3629 well-formedness). -/
def validUtf8 : List Nat → Bool
  | [] => true
  | b :: rest =>
    if b ≤ 127 then validUtf8 rest
    else if 194 ≤ b ∧ b ≤ 223 then
      match rest with
      | c1 :: r => (128 ≤ c1 ∧ c1 ≤ 191) && validUtf8 r
      | [] => false
    else if b = 224 then
      match rest with
      | c1 :: c2 :: r => (160 ≤ c1 ∧ c1 ≤ 191) && (128 ≤ c2 ∧ c2 ≤ 191) && validUtf8 r
      | _ => false
    else if (225 ≤ b ∧ b ≤ 236) ∨ b = 238 ∨ b = 239 then
      match rest with
      | c1 :: c2 :: r => (128 ≤ c1 ∧ c1 ≤ 191) && (128 ≤ c2 ∧ c2 ≤ 191) && validUtf8 r
      | _ => false
    else if b = 237 then
      match rest with
      | c1 :: c2 :: r => (128 ≤ c1 ∧ c1 ≤ 159) && (128 ≤ c2 ∧ c2 ≤ 191) && validUtf8 r
      | _ => false
    else if b = 240 then
      match rest with
      | c1 :: c2 :: c3 :: r =>
        (144 ≤ c1 ∧ c1 ≤ 191) && (128 ≤ c2 ∧ c2 ≤ 191) && (128 ≤ c3 ∧ c3 ≤ 191) &&
          validUtf8 r
      | _ => false
    else if 241 ≤ b ∧ b ≤ 243 then
      match rest with
      | c1 :: c2 :: c3 :: r =>
        (128 ≤ c1 ∧ c1 ≤ 191) && (128 ≤ c2 ∧ c2 ≤ 191) && (128 ≤ c3 ∧ c3 ≤ 191) &&
          validUtf8 r
      | _ => false
    else if b = 244 then
      match rest with
      | c1 :: c2 :: c3 :: r =>
        (128 ≤ c1 ∧ c1 ≤ 143) && (128 ≤ c2 ∧ c2 ≤ 191) && (128 ≤ c3 ∧ c3 ≤ 191) &&
          validUtf8 r
      | _ => false
    else false

/-- `Iterator::position`: index of the first element satisfying the
predicate. -/
def position0 (p : Nat → Bool) : List Nat → Option Nat
  | [] => none
  | b :: rest => if p b then some 0 else (position0 p rest).map (· + 1)

/-- `DescriptionBox`: UUID, optional label, requestable flag, optional id,
optional hash, optional private box, plus the original byte range
(src/parser/description_box.rs). -/
structure DescriptionBox where
  uuid : List Nat
  label : Option (List Nat)
  requestable : Bool
  id : Option Nat
  hash : Option (List Nat)
  privateBox : Option DataBox
  original : InputData
deriving DecidableEq, Repr

/-- The UUID step of `from_box` (description_box.rs lines 88–96): 16 bytes
or `Incomplete(16 − available)`. -/
def uuidStep (bytes : List Nat) : Except Err (List Nat × List Nat) :=
  if 16 ≤ bytes.length then .ok (bytes.take 16, bytes.drop 16)
  else .error (.Incomplete (16 - bytes.length))

/-- The toggles step of `from_box` (lines 99–103): one byte or
`Incomplete(1)`. -/
def togglesStep (i : List Nat) : Except Err (Nat × List Nat) :=
  if i.isEmpty then .error (.Incomplete 1) else .ok (i.headD 0, i.drop 1)

/-- The label step of `from_box` (lines 110–117): when `HAS_LABEL` is set,
find the NUL terminator (`Incomplete(1)` when absent), check UTF-8
validity (`Utf8Error`), and consume through the terminator. -/
def labelStep (toggles : Nat) (i : List Nat) :
    Except Err (Option (List Nat) × List Nat) :=
  if hasToggle toggles 1 then
    match position0 (fun b => b == 0) i with
    | none => .error (.Incomplete 1)
    | some p =>
      if validUtf8 (i.take p) then .ok (some (i.take p), i.drop (p + 1))
      else .error .Utf8Error
  else .ok (none, i)

/-- The id step of `from_box` (lines 121–130): when `HAS_ID` is set, a
4-byte big-endian integer or `Incomplete(4 − available)`. -/
def idStep (toggles : Nat) (i : List Nat) :
    Except Err (Option Nat × List Nat) :=
  if hasToggle toggles 2 then
    if i.length < 4 then .error (.Incomplete (4 - i.length))
    else .ok (some (be32 (i.take 4)), i.drop 4)
  else .ok (none, i)

/-- The hash step of `from_box` (lines 134–148): when `HAS_HASH` is set,
32 raw bytes or `Incomplete(32 − available)`. -/
def hashStep (toggles : Nat) (i : List Nat) :
    Except Err (Option (List Nat) × List Nat) :=
  if hasToggle toggles 3 then
    if 32 ≤ i.length then .ok (some (i.take 32), i.drop 32)
    else .error (.Incomplete (32 - i.length))
  else .ok (none, i)

/-- The private-box step of `from_box` (lines 152–157): when
`HAS_PRIVATE_BOX` is set, one nested box parsed by the header decoder.
`a` is the raw address of the remaining bytes. -/
def privateStep (toggles : Nat) (a : Nat) (i : List Nat) :
    Except Err (Option DataBox × List Nat) :=
  if hasToggle toggles 4 then
    match DataBox.fromSlice a i with
    | .error e => .error e
    | .ok (p, r) => .ok (some p, r)
  else .ok (none, i)

/-- `DescriptionBox::from_box` (src/parser/description_box.rs lines
80–171): validate the type tag, then parse the payload strictly
sequentially — UUID, toggles, then the toggle-gated optional fields —
returning the leftover bytes and the description box. -/
def DescriptionBox.fromBox (db : DataBox) :
    Except Err (List Nat × DescriptionBox) :=
  if db.tbox ≠ DESCRIPTION_BOX_TYPE then
    .error (.InvalidDescriptionBoxType db.tbox)
  else
    let bytes := db.data.sliceBytes
    match uuidStep bytes with
    | .error e => .error e
    | .ok (uuid, i0) =>
      match togglesStep i0 with
      | .error e => .error e
      | .ok (toggles, i1) =>
        let requestable := hasToggle toggles 0
        match labelStep toggles i1 with
        | .error e => .error e
        | .ok (label, i2) =>
          match idStep toggles i2 with
          | .error e => .error e
          | .ok (idv, i3) =>
            match hashStep toggles i3 with
            | .error e => .error e
            | .ok (hash, i4) =>
              match privateStep toggles
                  (db.data.baseAddr + (bytes.length - i4.length)) i4 with
              | .error e => .error e
              | .ok (priv, i5) =>
                .ok (i5, ⟨uuid, label, requestable, idv, hash, priv, db.original⟩)

/-- From the spec: "each step consuming exactly its field width or failing
with `Incomplete(n)` where `n` is the number of missing bytes". -/
def takeField (n : Nat) (i : List Nat) : Except Err (List Nat × List Nat) :=
  if n ≤ i.length then .ok (i.take n, i.drop n)
  else .error (.Incomplete (n - i.length))

/-- From the spec: "a NUL-terminated UTF-8 string (…; `Incomplete(1)` if
no terminator found)" — the bytes before the first NUL and the bytes
after it. -/
def takeNullTerminated : List Nat → Except Err (List Nat × List Nat)
  | [] => .error (.Incomplete 1)
  | b :: rest =>
    if b = 0 then .ok ([], rest)
    else
      match takeNullTerminated rest with
      | .error e => .error e
      | .ok (l, r) => .ok (b :: l, r)

/-- Spec-worded toggles step: a 1-byte field read via `takeField`. -/
def togglesSpecStep (i : List Nat) : Except Err (Nat × List Nat) :=
  match takeField 1 i with
  | .error e => .error e
  | .ok (t, r) => .ok (t.headD 0, r)

/-- Spec-worded label step: NUL-terminated string, then UTF-8 check
(`Utf8Error` on invalid encoding). -/
def labelSpecStep (toggles : Nat) (i : List Nat) :
    Except Err (Option (List Nat) × List Nat) :=
  if hasToggle toggles 1 then
    match takeNullTerminated i with
    | .error e => .error e
    | .ok (lab, r) =>
      if validUtf8 lab then .ok (some lab, r) else .error .Utf8Error
  else .ok (none, i)

/-- Spec-worded id step: a 4-byte big-endian unsigned integer. -/
def idSpecStep (toggles : Nat) (i : List Nat) :
    Except Err (Option Nat × List Nat) :=
  if hasToggle toggles 2 then
    match takeField 4 i with
    | .error e => .error e
    | .ok (b, r) => .ok (some (be32 b), r)
  else .ok (none, i)

/-- Spec-worded hash step: 32 raw bytes, uninterpreted. -/
def hashSpecStep (toggles : Nat) (i : List Nat) :
    Except Err (Option (List Nat) × List Nat) :=
  if hasToggle toggles 3 then
    match takeField 32 i with
    | .error e => .error e
    | .ok (b, r) => .ok (some b, r)
  else .ok (none, i)

/-- The description-box layout exactly as the spec words it (§4.2): type
tag check, then 16-byte UUID, 1-byte toggles, optional NUL-terminated
UTF-8 label (bit 0x02), optional 4-byte big-endian id (0x04), optional
32-byte hash (0x08), optional nested private box (0x10) parsed via the
header decoder. -/
def descSpecParse (db : DataBox) : Except Err (List Nat × DescriptionBox) :=
  if db.tbox ≠ DESCRIPTION_BOX_TYPE then
    .error (.InvalidDescriptionBoxType db.tbox)
  else
    let bytes := db.data.sliceBytes
    match takeField 16 bytes with
    | .error e => .error e
    | .ok (uuid, i0) =>
      match togglesSpecStep i0 with
      | .error e => .error e
      | .ok (toggles, i1) =>
        let requestable := hasToggle toggles 0
        match labelSpecStep toggles i1 with
        | .error e => .error e
        | .ok (label, i2) =>
          match idSpecStep toggles i2 with
          | .error e => .error e
          | .ok (idv, i3) =>
            match hashSpecStep toggles i3 with
            | .error e => .error e
            | .ok (hash, i4) =>
              match privateStep toggles
                  (db.data.baseAddr + (bytes.length - i4.length)) i4 with
              | .error e => .error e
              | .ok (priv, i5) =>
                .ok (i5, ⟨uuid, label, requestable, idv, hash, priv, db.original⟩)

theorem uuidStep_eq_takeField (bytes : List Nat) :
    uuidStep bytes = takeField 16 bytes := rfl

theorem togglesStep_eq (i : List Nat) : togglesStep i = togglesSpecStep i := by
  cases i with
  | nil => rfl
  | cons b rest =>
    simp [togglesStep, togglesSpecStep, takeField]

theorem takeNullTerminated_position0 (i : List Nat) :
    takeNullTerminated i =
      match position0 (fun b => b == 0) i with
      | none => .error (.Incomplete 1)
      | some p => .ok (i.take p, i.drop (p + 1)) := by
  induction i with
  | nil => rfl
  | cons b rest ih =>
    by_cases hb : b = 0
    · subst hb
      simp [takeNullTerminated, position0]
    · rw [takeNullTerminated, position0]
      simp only [show (b == 0) = false by simpa using hb, if_neg hb, Bool.false_eq_true,
        reduceIte, ih]
      cases hp : position0 (fun b => b == 0) rest with
      | none => simp
      | some p => simp

theorem labelStep_eq (toggles : Nat) (i : List Nat) :
    labelStep toggles i = labelSpecStep toggles i := by
  unfold labelStep labelSpecStep
  rw [takeNullTerminated_position0]
  cases hp : position0 (fun b => b == 0) i with
  | none => rfl
  | some p => simp

theorem idStep_eq (toggles : Nat) (i : List Nat) :
    idStep toggles i = idSpecStep toggles i := by
  unfold idStep idSpecStep takeField
  by_cases h4 : i.length < 4
  · simp [h4, show ¬4 ≤ i.length by omega]
  · simp [h4, show 4 ≤ i.length by omega]

theorem hashStep_eq (toggles : Nat) (i : List Nat) :
    hashStep toggles i = hashSpecStep toggles i := by
  unfold hashStep hashSpecStep takeField
  by_cases h32 : 32 ≤ i.length
  · simp [h32]
  · simp [h32]

/-- **C3.** `DescriptionBox::from_box` parses the payload strictly
sequentially — 16-byte UUID, 1-byte toggles, then, gated by toggle bits,
optional NUL-terminated UTF-8 label (0x02), optional 4-byte big-endian id
(0x04), optional 32-byte hash (0x08), optional nested private box (0x10)
— failing with `Incomplete(n)` where `n` is exactly the number of missing
bytes (`Incomplete(1)` for a missing NUL terminator), `Utf8Error` for an
invalid label encoding, and `InvalidDescriptionBoxType` carrying the
offending tag on a type mismatch: the implementation equals the
field-by-field specification parser. -/
theorem claim3_description_box_sequential (db : DataBox) :
    DescriptionBox.fromBox db = descSpecParse db := by
  unfold DescriptionBox.fromBox descSpecParse
  simp only [uuidStep_eq_takeField, togglesStep_eq, labelStep_eq, idStep_eq, hashStep_eq]

/-! ### Superbox tree builder -/

/-- `DescriptionBox::from_slice` (description_box.rs lines 66–70): parse
one box from the input, reinterpret it as a description box, and return
the description box together with the remainder of the outer input (the
box-internal leftover is discarded). -/
def DescriptionBox.fromSlice (a : Nat) (i : List Nat) :
    Except Err (DescriptionBox × List Nat) :=
  match DataBox.fromSlice a i with
  | .error e => .error e
  | .ok (db, rem) =>
    match DescriptionBox.fromBox db with
    | .error e => .error e
    | .ok (_, desc) => .ok (desc, rem)

mutual
/-- `SuperBox`: a description box plus an ordered list of child boxes,
with the original byte range (src/parser/super_box.rs). -/
inductive SuperBox where
  | mk : DescriptionBox → List ChildBox → InputData → SuperBox

/-- `ChildBox`: a single box within a superbox, either a recursively
parsed superbox or an opaque data box. -/
inductive ChildBox where
  | sbox : SuperBox → ChildBox
  | dbox : DataBox → ChildBox
end

/-- Field accessor `super_box.desc`. -/
def SuperBox.desc : SuperBox → DescriptionBox
  | .mk d _ _ => d

/-- Field accessor `super_box.child_boxes`. -/
def SuperBox.childBoxes : SuperBox → List ChildBox
  | .mk _ c _ => c

/-- Field accessor `super_box.original`. -/
def SuperBox.original : SuperBox → InputData
  | .mk _ _ o => o

/-- `ChildBox::as_super_box` (super_box.rs lines 351–357). -/
def ChildBox.asSuperBox : ChildBox → Option SuperBox
  | .sbox sb => some sb
  | .dbox _ => none

/-- `ChildBox::as_data_box` (super_box.rs lines 361–367). -/
def ChildBox.asDataBox : ChildBox → Option DataBox
  | .sbox _ => none
  | .dbox db => some db

/-- Fuelled form of `boxes_from_slice` (super_box.rs lines 299–310): parse
boxes back-to-back until the slice is empty.  Each successful `from_slice`
consumes at least 8 bytes, so fuel `i.length + 1` always suffices
(`boxesF_fuel_irrelevant`). -/
def boxesF : Nat → Nat → List Nat → Except Err (List DataBox × List Nat)
  | 0, _, _ => .error (.IoError "recursion fuel exhausted")
  | fuel + 1, a, i =>
    if i.isEmpty then .ok ([], i)
    else
      match DataBox.fromSlice a i with
      | .error e => .error e
      | .ok (db, x) =>
        match boxesF fuel (a + (i.length - x.length)) x with
        | .error e => .error e
        | .ok (bs, r) => .ok (db :: bs, r)

/-- `boxes_from_slice`: the fuelled loop at its sufficient fuel. -/
def boxesFromSlice (a : Nat) (i : List Nat) :
    Except Err (List DataBox × List Nat) :=
  boxesF (i.length + 1) a i

/-- The child-mapping loop of `from_data_box_with_depth_limit` (the
`map`/`collect` over parsed sibling boxes, super_box.rs lines 120–130),
parameterized by the recursive call. -/
def mapChildren (f : DataBox → Except Err ChildBox) :
    List DataBox → Except Err (List ChildBox)
  | [] => .ok []
  | d :: rest =>
    match f d with
    | .error e => .error e
    | .ok c =>
      match mapChildren f rest with
      | .error e => .error e
      | .ok cs => .ok (c :: cs)

/-- Fuelled form of `SuperBox::from_data_box_with_depth_limit`
(super_box.rs lines 101–140): validate the `jumb` tag, take the borrowed
payload, parse one description box, parse sibling boxes until the payload
is exhausted, then wrap each sibling — recursively as a `SuperBox`
(consuming one unit of depth budget) when it has the `jumb` tag and the
budget is positive, otherwise as an opaque `DataBox`.  One unit of fuel is
consumed per nesting level; since each level's payload is strictly
shorter, fuel `data length + 1` always suffices
(`superCore_fuel_irrelevant`). -/
def superCore : Nat → DataBox → Nat → Except Err (SuperBox × List Nat)
  | 0, _, _ => .error (.IoError "recursion fuel exhausted")
  | fuel + 1, db, depth =>
    if db.tbox ≠ SUPER_BOX_TYPE then .error (.InvalidSuperBoxType db.tbox)
    else
      match db.data with
      | .lazy _ _ => .error (.IoError "Expected borrowed data")
      | .borrowed a bytes =>
        match DescriptionBox.fromSlice a bytes with
        | .error e => .error e
        | .ok (desc, i) =>
          match boxesFromSlice (a + (bytes.length - i.length)) i with
          | .error e => .error e
          | .ok (bs, r) =>
            match mapChildren (fun d =>
                if d.tbox = SUPER_BOX_TYPE ∧ 0 < depth then
                  match superCore fuel d (depth - 1) with
                  | .error e => .error e
                  | .ok (sb, _) => .ok (ChildBox.sbox sb)
                else .ok (ChildBox.dbox d)) bs with
            | .error e => .error e
            | .ok cs => .ok (SuperBox.mk desc cs db.original, r)

/-- `usize::MAX` on a 64-bit target: the depth limit used by the
unlimited-depth entry points. -/
def USIZE_MAX : Nat := 2 ^ 64 - 1

/-- `SuperBox::from_data_box_with_depth_limit`. -/
def SuperBox.fromDataBoxWithDepthLimit (db : DataBox) (depth : Nat) :
    Except Err (SuperBox × List Nat) :=
  superCore (db.data.len + 1) db depth

/-- `SuperBox::from_data_box` (super_box.rs lines 86–88): unlimited
depth. -/
def SuperBox.fromDataBox (db : DataBox) : Except Err (SuperBox × List Nat) :=
  SuperBox.fromDataBoxWithDepthLimit db USIZE_MAX

/-- `SuperBox::from_slice_with_depth_limit` (super_box.rs lines 68–75):
parse one box, reinterpret as a superbox, and return it with the
remainder of the outer input (the superbox-internal leftover is
discarded). -/
def SuperBox.fromSliceWithDepthLimit (a : Nat) (input : List Nat)
    (depth : Nat) : Except Err (SuperBox × List Nat) :=
  match DataBox.fromSlice a input with
  | .error e => .error e
  | .ok (db, i) =>
    match SuperBox.fromDataBoxWithDepthLimit db depth with
    | .error e => .error e
    | .ok (sb, _) => .ok (sb, i)

/-- `SuperBox::from_slice` (super_box.rs lines 54–56): unlimited depth. -/
def SuperBox.fromSlice (a : Nat) (input : List Nat) :
    Except Err (SuperBox × List Nat) :=
  SuperBox.fromSliceWithDepthLimit a input USIZE_MAX

/-- `str::split_once('/')` at the byte level: the bytes before the first
`/` (byte 47) and the bytes after it, or `none` when no `/` occurs. -/
def splitOnceSlash : List Nat → Option (List Nat × List Nat)
  | [] => none
  | b :: rest =>
    if b = 47 then some ([], rest)
    else (splitOnceSlash rest).map (fun p => (b :: p.1, p.2))

/-- The first path segment and the optional remaining path, exactly as
`find_by_label` computes them (super_box.rs lines 154–157). -/
def splitFirstSegment (label : List Nat) : List Nat × Option (List Nat) :=
  match splitOnceSlash label with
  | some (a, b) => (a, some b)
  | none => (label, none)

/-- The `matching_children` collection of `find_by_label` (super_box.rs
lines 159–176): filter the direct children, keeping a child superbox
exactly when it carries a label equal to the segment and its
`requestable` flag is set. -/
def matchingChildren (sb : SuperBox) (seg : List Nat) : List SuperBox :=
  sb.childBoxes.filterMap (fun cb =>
    match cb with
    | .sbox s =>
      match s.desc.label with
      | some l => if l = seg ∧ s.desc.requestable = true then some s else none
      | none => none
    | .dbox _ => none)

/-- Fuelled form of `SuperBox::find_by_label` (super_box.rs lines
153–191): split off the first `/`-separated segment, collect the
matching children, and proceed only when exactly one child matches.
Each recursive call's label is strictly shorter, so fuel
`label.length + 1` always suffices (`findF_fuel_irrelevant`). -/
def findF : Nat → SuperBox → List Nat → Option SuperBox
  | 0, _, _ => none
  | fuel + 1, sb, label =>
    match matchingChildren sb (splitFirstSegment label).1 with
    | [s] =>
      match (splitFirstSegment label).2 with
      | some suf => findF fuel s suf
      | none => some s
    | _ => none

/-- `SuperBox::find_by_label`: the fuelled search at its sufficient
fuel. -/
def SuperBox.findByLabel (sb : SuperBox) (label : List Nat) :
    Option SuperBox :=
  findF (label.length + 1) sb label

/-- `DataBox::offset_within_superbox` (data_box.rs lines 204–222): both
spans must be borrowed; compare raw addresses, refuse a payload starting
before the superbox or reaching past its end, and otherwise return the
address difference. -/
def DataBox.offsetWithinSuperbox (db : DataBox) (sb : SuperBox) :
    Option Nat :=
  match sb.original, db.data with
  | .borrowed sboxAddr sboxBytes, .borrowed dataAddr dataBytes =>
    if dataAddr < sboxAddr then none
    else if (dataAddr - sboxAddr) + dataBytes.length > sboxBytes.length then none
    else some (dataAddr - sboxAddr)
  | _, _ => none

/-! ### Fuel sufficiency and structure lemmas for the tree builder -/

/-- A successful `from_slice` consumes at least 8 bytes: the payload span
and the remainder are both at least 8 bytes shorter than the input. -/
theorem fromSlice_ok_bounds (a : Nat) (i : List Nat) (db : DataBox)
    (x : List Nat) (h : DataBox.fromSlice a i = .ok (db, x)) :
    db.data.len + 8 ≤ i.length ∧ x.length + 8 ≤ i.length := by
  unfold DataBox.fromSlice at h
  split at h
  · exact absurd h (by simp)
  next pb cur heq =>
    split at h
    · exact absurd h (by simp)
    next hpos =>
      simp only [Except.ok.injEq, Prod.mk.injEq] at h
      obtain ⟨hdb, hx⟩ := h
      subst hdb
      subst hx
      obtain ⟨-, h2, h3, h4, -, h6, h7, h8, hcases⟩ :=
        fromSource_ok_spans ⟨i, 0⟩ pb cur heq
      dsimp only at h2 h3 h4 h6 h7 h8 hcases
      have hb : pb.origLen ≤ i.length := by omega
      have hoff : 8 ≤ pb.dataOff ∧ pb.dataOff + pb.dataLen = pb.origLen ∧
          8 ≤ pb.origLen := by
        rcases hcases with hc | hc | hc
        · obtain ⟨e1, e2, e3⟩ := h6 hc
          omega
        · obtain ⟨e0, e1, e2, e3, e4⟩ := h7 hc
          omega
        · obtain ⟨e1, e2, e3⟩ := h8 hc
          omega
      have hlen_data : (mkBorrowed a i pb.dataOff pb.dataLen).len = pb.dataLen := by
        unfold mkBorrowed
        rw [if_pos (by omega)]
        simp only [InputData.len, List.length_take, List.length_drop]
        omega
      simp only [hlen_data, List.length_drop]
      omega

/-- Every box produced by the `boxes_from_slice` loop has a payload at
least 8 bytes shorter than the remaining input it was read from. -/
theorem boxesF_mem_lt (fuel : Nat) :
    ∀ a i bs r, boxesF fuel a i = .ok (bs, r) →
      ∀ d ∈ bs, d.data.len + 8 ≤ i.length := by
  induction fuel with
  | zero => intro a i bs r h; exact absurd h (by simp [boxesF])
  | succ fuel ih =>
    intro a i bs r h
    unfold boxesF at h
    split at h
    · simp only [Except.ok.injEq, Prod.mk.injEq] at h
      obtain ⟨hbs, -⟩ := h
      subst hbs
      intro d hd
      exact absurd hd (by simp)
    · split at h
      · exact absurd h (by simp)
      next db x hslice =>
        split at h
        · exact absurd h (by simp)
        next bs' r' hrest =>
          simp only [Except.ok.injEq, Prod.mk.injEq] at h
          obtain ⟨hbs, -⟩ := h
          subst hbs
          intro d hd
          obtain ⟨hdb, hx⟩ := fromSlice_ok_bounds _ _ _ _ hslice
          rcases List.mem_cons.mp hd with hd | hd
          · subst hd
            exact hdb
          · have := ih _ _ _ _ hrest d hd
            omega

/-- The `boxes_from_slice` loop is fuel-irrelevant above `i.length`. -/
theorem boxesF_fuel_irrelevant (f₁ : Nat) :
    ∀ f₂ a i, i.length < f₁ → i.length < f₂ →
      boxesF f₁ a i = boxesF f₂ a i := by
  induction f₁ with
  | zero => intro f₂ a i h1 h2; omega
  | succ f₁ ih =>
    intro f₂ a i h1 h2
    cases f₂ with
    | zero => omega
    | succ f₂ =>
      unfold boxesF
      split
      · rfl
      next hne =>
        cases hslice : DataBox.fromSlice a i with
        | error e => rfl
        | ok p =>
          obtain ⟨db, x⟩ := p
          obtain ⟨-, hx⟩ := fromSlice_ok_bounds _ _ _ _ hslice
          dsimp only
          rw [ih f₂ (a + (i.length - x.length)) x (by omega) (by omega)]

/-- `DescriptionBox::from_slice` returns a suffix of its input. -/
theorem descFromSlice_len (a : Nat) (bytes : List Nat)
    (desc : DescriptionBox) (i : List Nat)
    (h : DescriptionBox.fromSlice a bytes = .ok (desc, i)) :
    i.length + 8 ≤ bytes.length := by
  unfold DescriptionBox.fromSlice at h
  split at h
  · exact absurd h (by simp)
  next db rem hslice =>
    split at h
    · exact absurd h (by simp)
    next hbox =>
      simp only [Except.ok.injEq, Prod.mk.injEq] at h
      obtain ⟨-, hi⟩ := h
      subst hi
      exact (fromSlice_ok_bounds _ _ _ _ hslice).2

/-- `mapChildren` only depends on the function's values on the list. -/
theorem mapChildren_congr (f g : DataBox → Except Err ChildBox)
    (bs : List DataBox) (h : ∀ d ∈ bs, f d = g d) :
    mapChildren f bs = mapChildren g bs := by
  induction bs with
  | nil => rfl
  | cons d rest ih =>
    unfold mapChildren
    rw [h d (by simp), ih (fun d hd => h d (by simp [hd]))]

/-- Pointwise reading of a successful `mapChildren`. -/
theorem mapChildren_ok_get (f : DataBox → Except Err ChildBox) :
    ∀ bs cs, mapChildren f bs = .ok cs →
      cs.length = bs.length ∧
      ∀ j (hj : j < bs.length) (hj' : j < cs.length),
        f (bs.get ⟨j, hj⟩) = .ok (cs.get ⟨j, hj'⟩) := by
  intro bs
  induction bs with
  | nil =>
    intro cs h
    simp only [mapChildren, Except.ok.injEq] at h
    subst h
    exact ⟨rfl, fun j hj _ => absurd hj (by simp)⟩
  | cons d rest ih =>
    intro cs h
    unfold mapChildren at h
    split at h
    · exact absurd h (by simp)
    next c hc =>
      split at h
      · exact absurd h (by simp)
      next cs' hcs' =>
        simp only [Except.ok.injEq] at h
        subst h
        obtain ⟨hlen, hget⟩ := ih cs' hcs'
        refine ⟨by simp [hlen], ?_⟩
        intro j hj hj'
        cases j with
        | zero => simpa using hc
        | succ j =>
          simpa using hget j (by simpa using hj) (by simpa using hj')

/-- At depth 0 the child-mapping loop wraps every sibling unparsed. -/
theorem mapChildren_zero (fuel : Nat) (bs : List DataBox) :
    mapChildren (fun d =>
      if d.tbox = SUPER_BOX_TYPE ∧ 0 < (0 : Nat) then
        match superCore fuel d (0 - 1) with
        | .error e => .error e
        | .ok (sb, _) => .ok (ChildBox.sbox sb)
      else .ok (ChildBox.dbox d)) bs = .ok (bs.map ChildBox.dbox) := by
  induction bs with
  | nil => rfl
  | cons d rest ih =>
    unfold mapChildren
    rw [if_neg (by simp), ih]
    rfl

/-- `superCore` is fuel-irrelevant above the payload length: one unit of
fuel is consumed per nesting level and each level's payload is strictly
shorter. -/
theorem superCore_fuel_irrelevant (f₁ : Nat) :
    ∀ f₂ db depth, db.data.len < f₁ → db.data.len < f₂ →
      superCore f₁ db depth = superCore f₂ db depth := by
  induction f₁ with
  | zero => intro f₂ db depth h1 h2; omega
  | succ f₁ ih =>
    intro f₂ db depth h1 h2
    cases f₂ with
    | zero => omega
    | succ f₂ =>
      unfold superCore
      split
      · rfl
      next htbox =>
        cases hdata : db.data with
        | lazy o l => rfl
        | borrowed a bytes =>
          rw [hdata] at h1 h2
          simp only [InputData.len] at h1 h2
          dsimp only
          cases hdesc : DescriptionBox.fromSlice a bytes with
          | error e => rfl
          | ok p =>
            obtain ⟨desc, i⟩ := p
            dsimp only
            cases hboxes : boxesFromSlice (a + (bytes.length - i.length)) i with
            | error e => rfl
            | ok q =>
              obtain ⟨bs, r⟩ := q
              dsimp only
              have hcong := mapChildren_congr
                (fun d => if d.tbox = SUPER_BOX_TYPE ∧ 0 < depth then
                    match superCore f₁ d (depth - 1) with
                    | .error e => .error e
                    | .ok (sb, _) => .ok (ChildBox.sbox sb)
                  else .ok (ChildBox.dbox d))
                (fun d => if d.tbox = SUPER_BOX_TYPE ∧ 0 < depth then
                    match superCore f₂ d (depth - 1) with
                    | .error e => .error e
                    | .ok (sb, _) => .ok (ChildBox.sbox sb)
                  else .ok (ChildBox.dbox d)) bs ?_
              · rw [hcong]
              · intro d hd
                dsimp only
                unfold boxesFromSlice at hboxes
                have hdlt := boxesF_mem_lt _ _ _ _ _ hboxes d hd
                have hdesclen := descFromSlice_len _ _ _ _ hdesc
                by_cases hc : d.tbox = SUPER_BOX_TYPE ∧ 0 < depth
                · rw [if_pos hc, if_pos hc,
                    ih f₂ d (depth - 1) (by omega) (by omega)]
                · rw [if_neg hc, if_neg hc]

/-- `superCore` is depth-irrelevant above the payload length: unwrapping
one nesting level consumes one unit of depth budget, and nesting depth is
bounded by the payload length. -/
theorem superCore_depth_irrelevant (fuel : Nat) :
    ∀ db d₁ d₂, db.data.len ≤ d₁ → db.data.len ≤ d₂ →
      superCore fuel db d₁ = superCore fuel db d₂ := by
  induction fuel with
  | zero => intro db d₁ d₂ h1 h2; rfl
  | succ fuel ih =>
    intro db d₁ d₂ h1 h2
    unfold superCore
    split
    · rfl
    next htbox =>
      cases hdata : db.data with
      | lazy o l => rfl
      | borrowed a bytes =>
        rw [hdata] at h1 h2
        simp only [InputData.len] at h1 h2
        dsimp only
        cases hdesc : DescriptionBox.fromSlice a bytes with
        | error e => rfl
        | ok p =>
          obtain ⟨desc, i⟩ := p
          dsimp only
          cases hboxes : boxesFromSlice (a + (bytes.length - i.length)) i with
          | error e => rfl
          | ok q =>
            obtain ⟨bs, r⟩ := q
            dsimp only
            have hcong := mapChildren_congr
              (fun d => if d.tbox = SUPER_BOX_TYPE ∧ 0 < d₁ then
                  match superCore fuel d (d₁ - 1) with
                  | .error e => .error e
                  | .ok (sb, _) => .ok (ChildBox.sbox sb)
                else .ok (ChildBox.dbox d))
              (fun d => if d.tbox = SUPER_BOX_TYPE ∧ 0 < d₂ then
                  match superCore fuel d (d₂ - 1) with
                  | .error e => .error e
                  | .ok (sb, _) => .ok (ChildBox.sbox sb)
                else .ok (ChildBox.dbox d)) bs ?_
            · rw [hcong]
            · intro d hd
              dsimp only
              unfold boxesFromSlice at hboxes
              have hdlt := boxesF_mem_lt _ _ _ _ _ hboxes d hd
              have hdesclen := descFromSlice_len _ _ _ _ hdesc
              by_cases ht : d.tbox = SUPER_BOX_TYPE
              · rw [if_pos ⟨ht, by omega⟩, if_pos ⟨ht, by omega⟩,
                  ih d (d₁ - 1) (d₂ - 1) (by omega) (by omega)]
              · rw [if_neg (fun hc => ht hc.1), if_neg (fun hc => ht hc.1)]

/-- Inversion of a successful `superCore` run: the same input parses at
depth 0 with every sibling box exposed unparsed, and each child of the
original run is determined by the corresponding raw sibling box. -/
theorem superCore_zero_of_ok (f : Nat) (db : DataBox) (depth : Nat)
    (sb : SuperBox) (r : List Nat)
    (h : superCore (f + 1) db depth = .ok (sb, r)) :
    ∃ bs : List DataBox,
      superCore (f + 1) db 0 =
        .ok (SuperBox.mk sb.desc (bs.map ChildBox.dbox) db.original, r) ∧
      sb.original = db.original ∧
      sb.childBoxes.length = bs.length ∧
      (∀ j (hj : j < bs.length) (hj' : j < sb.childBoxes.length),
        (¬((bs.get ⟨j, hj⟩).tbox = SUPER_BOX_TYPE ∧ 0 < depth) →
          sb.childBoxes.get ⟨j, hj'⟩ = .dbox (bs.get ⟨j, hj⟩)) ∧
        ((bs.get ⟨j, hj⟩).tbox = SUPER_BOX_TYPE → 0 < depth →
          ∃ t rt, superCore f (bs.get ⟨j, hj⟩) (depth - 1) = .ok (t, rt) ∧
            sb.childBoxes.get ⟨j, hj'⟩ = .sbox t)) ∧
      (∀ d ∈ bs, d.data.len + 8 ≤ db.data.len) := by
  unfold superCore at h
  split at h
  · exact absurd h (by simp)
  next htbox =>
    split at h
    next o l hdata => exact absurd h (by simp)
    next a bytes hdata =>
      split at h
      · exact absurd h (by simp)
      next desc i hdesc =>
        split at h
        · exact absurd h (by simp)
        next bs r' hboxes =>
          split at h
          · exact absurd h (by simp)
          next cs hmap =>
            simp only [Except.ok.injEq, Prod.mk.injEq] at h
            obtain ⟨hsb, hr⟩ := h
            subst hr
            subst hsb
            refine ⟨bs, ?_, rfl, ?_, ?_, ?_⟩
            · unfold superCore
              rw [if_neg htbox, hdata]
              dsimp only
              rw [hdesc]
              dsimp only
              rw [hboxes]
              dsimp only
              rw [mapChildren_zero f bs]
              rfl
            · exact (mapChildren_ok_get _ bs cs hmap).1
            · intro j hj hj'
              have hj'' : j < cs.length := hj'
              have hget := (mapChildren_ok_get _ bs cs hmap).2 j hj hj''
              constructor
              · intro hneg
                rw [if_neg hneg] at hget
                exact (Except.ok.inj hget).symm
              · intro ht hdep
                rw [if_pos ⟨ht, hdep⟩] at hget
                cases hrec : superCore f (bs.get ⟨j, hj⟩) (depth - 1) with
                | error e =>
                  rw [hrec] at hget
                  exact absurd hget (by simp)
                | ok p =>
                  obtain ⟨t, rt⟩ := p
                  rw [hrec] at hget
                  exact ⟨t, rt, rfl, (Except.ok.inj hget).symm⟩
            · intro d hd
              unfold boxesFromSlice at hboxes
              have hdlt := boxesF_mem_lt _ _ _ _ _ hboxes d hd
              have hdesclen := descFromSlice_len _ _ _ _ hdesc
              rw [hdata]
              have hbl : (InputData.borrowed a bytes).len = bytes.length := rfl
              rw [hbl]
              omega

/-- **C4.** If `SuperBox::from_slice` succeeds with an unlimited depth
limit (`usize::MAX`), then parsing the same input with depth limit 0
succeeds with the same remainder, the same description and original span,
and with every superbox-typed child exposed as an unparsed `DataBox`;
re-invoking `SuperBox::from_data_box` on such a child with a fresh
unlimited budget reconstructs exactly the corresponding subtree of the
unlimited-depth parse. -/
theorem claim4_depth_limit_reparse (a : Nat) (input : List Nat)
    (res : SuperBox × List Nat) (hlen : input.length ≤ USIZE_MAX)
    (h : SuperBox.fromSliceWithDepthLimit a input USIZE_MAX = .ok res) :
    ∃ res0, SuperBox.fromSliceWithDepthLimit a input 0 = .ok res0 ∧
      res0.2 = res.2 ∧
      res0.1.desc = res.1.desc ∧
      res0.1.original = res.1.original ∧
      res0.1.childBoxes.length = res.1.childBoxes.length ∧
      ∀ j (hj : j < (res.1.childBoxes).length)
          (hj0 : j < (res0.1.childBoxes).length),
        (∀ t, (res.1.childBoxes).get ⟨j, hj⟩ = .sbox t →
          ∃ d rt, (res0.1.childBoxes).get ⟨j, hj0⟩ = .dbox d ∧
            d.tbox = SUPER_BOX_TYPE ∧
            SuperBox.fromDataBox d = .ok (t, rt)) ∧
        (∀ b, (res.1.childBoxes).get ⟨j, hj⟩ = .dbox b →
          (res0.1.childBoxes).get ⟨j, hj0⟩ = .dbox b) := by
  have hU : USIZE_MAX = 18446744073709551615 := by decide
  have hUpos : 0 < USIZE_MAX := by rw [hU]; omega
  unfold SuperBox.fromSliceWithDepthLimit at h
  split at h
  · exact absurd h (by simp)
  next db i hslice =>
    split at h
    · exact absurd h (by simp)
    next sb rem hsuper =>
      simp only [Except.ok.injEq] at h
      subst h
      unfold SuperBox.fromDataBoxWithDepthLimit at hsuper
      obtain ⟨bs, hzero, horig, hlen_cb, hchild, hmem⟩ :=
        superCore_zero_of_ok db.data.len db USIZE_MAX sb rem hsuper
      have hdbin := (fromSlice_ok_bounds _ _ _ _ hslice).1
      refine ⟨(SuperBox.mk sb.desc (bs.map ChildBox.dbox) db.original, i),
        ?_, rfl, rfl, ?_, ?_, ?_⟩
      · unfold SuperBox.fromSliceWithDepthLimit
        rw [hslice]
        dsimp only
        unfold SuperBox.fromDataBoxWithDepthLimit
        rw [hzero]
      · exact horig.symm
      · show (bs.map ChildBox.dbox).length = sb.childBoxes.length
        rw [List.length_map, hlen_cb]
      · intro j hj hj0
        have hjb : j < bs.length := by rw [← hlen_cb]; exact hj
        have hget0 : (SuperBox.mk sb.desc (bs.map ChildBox.dbox)
              db.original).childBoxes.get ⟨j, hj0⟩
            = ChildBox.dbox (bs.get ⟨j, hjb⟩) := by
          dsimp only [SuperBox.childBoxes]
          simp only [List.get_eq_getElem, List.getElem_map]
        obtain ⟨hc_neg, hc_pos⟩ := hchild j hjb hj
        have hdmem := hmem (bs.get ⟨j, hjb⟩) (List.get_mem bs j hjb)
        constructor
        · intro t ht
          by_cases hbox : (bs.get ⟨j, hjb⟩).tbox = SUPER_BOX_TYPE
          · obtain ⟨t', rt, hrec, hcb⟩ := hc_pos hbox hUpos
            have htt : t' = t := ChildBox.sbox.inj (hcb.symm.trans ht)
            rw [← htt]
            refine ⟨bs.get ⟨j, hjb⟩, rt, hget0, hbox, ?_⟩
            unfold SuperBox.fromDataBox SuperBox.fromDataBoxWithDepthLimit
            calc superCore ((bs.get ⟨j, hjb⟩).data.len + 1) (bs.get ⟨j, hjb⟩)
                  USIZE_MAX
                = superCore ((bs.get ⟨j, hjb⟩).data.len + 1) (bs.get ⟨j, hjb⟩)
                  (USIZE_MAX - 1) := by
                  apply superCore_depth_irrelevant
                  · rw [hU] at hlen ⊢
                    omega
                  · rw [hU] at hlen ⊢
                    omega
              _ = superCore db.data.len (bs.get ⟨j, hjb⟩) (USIZE_MAX - 1) := by
                  apply superCore_fuel_irrelevant <;> omega
              _ = .ok (t', rt) := hrec
          · have hd := hc_neg (fun hc => hbox hc.1)
            rw [ht] at hd
            exact absurd hd (by simp)
        · intro b hb
          by_cases hbox : (bs.get ⟨j, hjb⟩).tbox = SUPER_BOX_TYPE
          · obtain ⟨t', rt, hrec, hcb⟩ := hc_pos hbox hUpos
            rw [hb] at hcb
            exact absurd hcb (by simp)
          · have hd := hc_neg (fun hc => hbox hc.1)
            rw [hb] at hd
            rw [hget0, ← ChildBox.dbox.inj hd]

/-- A doubly nested superbox (outer `jumb` with minimal description and
one `jumb` child), 66 bytes. -/
def c4NestedBytes : List Nat :=
  [0, 0, 0, 0x42, 0x6a, 0x75, 0x6d, 0x62,
     0, 0, 0, 0x19, 0x6a, 0x75, 0x6d, 0x64,
       0, 0, 0, 0, 0, 0, 0, 0, 0, 0, 0, 0, 0, 0, 0, 0, 0,
     0, 0, 0, 0x21, 0x6a, 0x75, 0x6d, 0x62,
       0, 0, 0, 0x19, 0x6a, 0x75, 0x6d, 0x64,
         0, 0, 0, 0, 0, 0, 0, 0, 0, 0, 0, 0, 0, 0, 0, 0, 0]

theorem claim4_depth_limit_reparse_witness :
    ∃ res, SuperBox.fromSliceWithDepthLimit 0 c4NestedBytes USIZE_MAX = .ok res ∧
      ∃ res0, SuperBox.fromSliceWithDepthLimit 0 c4NestedBytes 0 = .ok res0 ∧
        res0.2 = res.2 ∧
        res0.1.desc = res.1.desc ∧
        res0.1.original = res.1.original ∧
        res0.1.childBoxes.length = res.1.childBoxes.length ∧
        ∀ j (hj : j < (res.1.childBoxes).length)
            (hj0 : j < (res0.1.childBoxes).length),
          (∀ t, (res.1.childBoxes).get ⟨j, hj⟩ = .sbox t →
            ∃ d rt, (res0.1.childBoxes).get ⟨j, hj0⟩ = .dbox d ∧
              d.tbox = SUPER_BOX_TYPE ∧
              SuperBox.fromDataBox d = .ok (t, rt)) ∧
          (∀ b, (res.1.childBoxes).get ⟨j, hj⟩ = .dbox b →
            (res0.1.childBoxes).get ⟨j, hj0⟩ = .dbox b) :=
  ⟨_, rfl, claim4_depth_limit_reparse 0 c4NestedBytes _ (by decide) rfl⟩

/-- The suffix produced by `split_once('/')` is strictly shorter than the
input (the separator is consumed). -/
theorem splitOnceSlash_suffix_lt :
    ∀ label a b, splitOnceSlash label = some (a, b) → b.length < label.length := by
  intro label
  induction label with
  | nil => intro a b h; exact Option.noConfusion h
  | cons c rest ih =>
    intro a b h
    unfold splitOnceSlash at h
    split at h
    · simp only [Option.some.injEq, Prod.mk.injEq] at h
      obtain ⟨-, hb⟩ := h
      subst hb
      simp
    · cases hs : splitOnceSlash rest with
      | none => rw [hs] at h; exact absurd h (by simp)
      | some p =>
        obtain ⟨a', b'⟩ := p
        rw [hs] at h
        simp at h
        obtain ⟨-, hb⟩ := h
        subst hb
        have := ih a' b' hs
        simp only [List.length_cons]
        omega

/-- The remaining path after splitting off the first segment is strictly
shorter than the whole label. -/
theorem splitFirstSegment_suffix_lt (label suf : List Nat)
    (h : (splitFirstSegment label).2 = some suf) : suf.length < label.length := by
  unfold splitFirstSegment at h
  cases hs : splitOnceSlash label with
  | none => rw [hs] at h; exact absurd h (by simp)
  | some p =>
    obtain ⟨a, b⟩ := p
    rw [hs] at h
    simp only [Option.some.injEq] at h
    subst h
    exact splitOnceSlash_suffix_lt label a b hs

/-- `find_by_label` is fuel-irrelevant above the label length. -/
theorem findF_fuel_irrelevant (f₁ : Nat) :
    ∀ f₂ sb label, label.length < f₁ → label.length < f₂ →
      findF f₁ sb label = findF f₂ sb label := by
  induction f₁ with
  | zero => intro f₂ sb label h1 h2; omega
  | succ f₁ ih =>
    intro f₂ sb label h1 h2
    cases f₂ with
    | zero => omega
    | succ f₂ =>
      unfold findF
      cases hM : matchingChildren sb (splitFirstSegment label).1 with
      | nil => rfl
      | cons s rest =>
        cases rest with
        | cons s2 rest2 => rfl
        | nil =>
          cases hsp : (splitFirstSegment label).2 with
          | none => rfl
          | some suf =>
            have hlt := splitFirstSegment_suffix_lt label suf hsp
            exact ih f₂ s suf (by omega) (by omega)

/-- From the spec: the direct children visible to label lookup — child
superboxes whose `requestable` flag is true and whose label equals the
segment. -/
def requestableMatches (sb : SuperBox) (seg : List Nat) : List SuperBox :=
  (sb.childBoxes.filterMap ChildBox.asSuperBox).filter
    (fun s => s.desc.requestable = true ∧ s.desc.label = some seg)

/-- The code's `matching_children` filter computes exactly the spec's
requestable matches. -/
theorem matchingChildren_eq (sb : SuperBox) (seg : List Nat) :
    matchingChildren sb seg = requestableMatches sb seg := by
  unfold matchingChildren requestableMatches
  generalize sb.childBoxes = l
  induction l with
  | nil => rfl
  | cons cb rest ih =>
    cases cb with
    | dbox d =>
      simpa [List.filterMap_cons, ChildBox.asSuperBox] using ih
    | sbox s =>
      cases hl : s.desc.label with
      | none =>
        simp only [List.filterMap_cons, ChildBox.asSuperBox, hl, List.filter_cons]
        rw [if_neg (by simp [hl]), ih]
      | some l =>
        by_cases hc : l = seg ∧ s.desc.requestable = true
        · simp only [List.filterMap_cons, ChildBox.asSuperBox, hl, List.filter_cons]
          rw [if_pos hc, if_pos (by simp [hl, hc.1, hc.2]), ih]
        · simp only [List.filterMap_cons, ChildBox.asSuperBox, hl, List.filter_cons]
          rw [if_neg hc, if_neg (by simp [hl]; intro hreq hseg; exact hc ⟨hseg, hreq⟩), ih]

/-- **C5.** `find_by_label` splits off the first `/`-separated segment and
considers only direct children that are superboxes with `requestable`
true and label equal to the segment: with exactly one match it returns
that child (recursing with the remaining segments); with zero or several
matches it returns `None`; a matching but non-requestable child is never
counted as a match. -/
theorem claim5_find_by_label (sb : SuperBox) (label seg : List Nat)
    (suffix : Option (List Nat))
    (hsplit : splitFirstSegment label = (seg, suffix)) :
    ((requestableMatches sb seg).length ≠ 1 → sb.findByLabel label = none) ∧
    (∀ s, requestableMatches sb seg = [s] → suffix = none →
      sb.findByLabel label = some s) ∧
    (∀ s suf, requestableMatches sb seg = [s] → suffix = some suf →
      sb.findByLabel label = s.findByLabel suf) ∧
    (∀ s ∈ requestableMatches sb seg,
      s.desc.requestable = true ∧ s.desc.label = some seg) ∧
    (∀ s, ChildBox.sbox s ∈ sb.childBoxes → s.desc.requestable = true →
      s.desc.label = some seg → s ∈ requestableMatches sb seg) := by
  have hseg : (splitFirstSegment label).1 = seg := by rw [hsplit]
  have hsuf : (splitFirstSegment label).2 = suffix := by rw [hsplit]
  subst hseg
  subst hsuf
  refine ⟨?_, ?_, ?_, ?_, ?_⟩
  · intro hne
    unfold SuperBox.findByLabel findF
    rw [matchingChildren_eq]
    cases hm : requestableMatches sb (splitFirstSegment label).1 with
    | nil => rfl
    | cons s rest =>
      cases rest with
      | nil => exact absurd (by rw [hm]; rfl) hne
      | cons s2 rest2 => rfl
  · intro s hm hnone
    unfold SuperBox.findByLabel findF
    rw [matchingChildren_eq, hm, hnone]
  · intro s suf hm hsome
    unfold SuperBox.findByLabel findF
    rw [matchingChildren_eq, hm, hsome]
    have hlt := splitFirstSegment_suffix_lt label suf hsome
    exact findF_fuel_irrelevant label.length (suf.length + 1) s suf
      (by omega) (by omega)
  · intro s hs
    unfold requestableMatches at hs
    have := List.of_mem_filter hs
    simpa using this
  · intro s hmem hreq hlab
    unfold requestableMatches
    apply List.mem_filter.mpr
    refine ⟨List.mem_filterMap.mpr ⟨ChildBox.sbox s, hmem, rfl⟩, by simp [hreq, hlab]⟩

/-- Concrete trees for the `find_by_label` witness. -/
def c5Desc (lab : Option (List Nat)) (req : Bool) : DescriptionBox :=
  ⟨List.replicate 16 0, lab, req, none, none, none, .borrowed 0 []⟩

def c5DupParent : SuperBox :=
  SuperBox.mk (c5Desc none true)
    [.sbox (SuperBox.mk (c5Desc (some [120]) true) [] (.borrowed 0 [])),
     .sbox (SuperBox.mk (c5Desc (some [120]) true) [] (.borrowed 0 []))]
    (.borrowed 0 [])

def c5SkipChild : SuperBox :=
  SuperBox.mk (c5Desc (some [122]) true) [] (.borrowed 0 [])

def c5SkipParent : SuperBox :=
  SuperBox.mk (c5Desc none true)
    [.sbox (SuperBox.mk (c5Desc (some [120]) false) [] (.borrowed 0 [])),
     .sbox c5SkipChild]
    (.borrowed 0 [])

theorem claim5_find_by_label_witness :
    c5DupParent.findByLabel [120] = none ∧
    c5SkipParent.findByLabel [120] = none ∧
    c5SkipParent.findByLabel [122] = some c5SkipChild :=
  ⟨(claim5_find_by_label c5DupParent [120] [120] none rfl).1 (by decide),
   (claim5_find_by_label c5SkipParent [120] [120] none rfl).1 (by decide),
   (claim5_find_by_label c5SkipParent [122] [122] none rfl).2.1 c5SkipChild rfl rfl⟩

/-- **C9.** `offset_within_superbox` returns `Some(offset)` exactly when
both the data box's payload span and the superbox's original span are
borrowed slices, the payload's start address is at or after the
superbox's, and the payload lies entirely within the superbox's address
range; the offset is the address difference.  A lazy span on either side,
a payload starting before the superbox, or a payload reaching past its
end all yield `None`. -/
theorem claim9_offset_within_superbox (db : DataBox) (sb : SuperBox) :
    (∀ k, db.offsetWithinSuperbox sb = some k ↔
      ∃ sboxAddr sboxBytes dataAddr dataBytes,
        sb.original = .borrowed sboxAddr sboxBytes ∧
        db.data = .borrowed dataAddr dataBytes ∧
        sboxAddr ≤ dataAddr ∧
        dataAddr + dataBytes.length ≤ sboxAddr + sboxBytes.length ∧
        k = dataAddr - sboxAddr) ∧
    (∀ off len, db.data = .lazy off len →
      db.offsetWithinSuperbox sb = none) ∧
    (∀ off len, sb.original = .lazy off len →
      db.offsetWithinSuperbox sb = none) := by
  refine ⟨?_, ?_, ?_⟩
  · intro k
    constructor
    · intro h
      unfold DataBox.offsetWithinSuperbox at h
      split at h
      next sa sbytes da dbytes hs hd =>
        split at h
        · exact absurd h (by simp)
        next hlt =>
          split at h
          · exact absurd h (by simp)
          next hover =>
            refine ⟨sa, sbytes, da, dbytes, hs, hd, by omega, by omega,
              (Option.some.inj h).symm⟩
      next => exact absurd h (by simp)
    · intro ⟨sa, sbytes, da, dbytes, hs, hd, hle, hin, hk⟩
      unfold DataBox.offsetWithinSuperbox
      rw [hs, hd]
      dsimp only
      rw [if_neg (by omega), if_neg (by omega)]
      rw [hk]
  · intro off len hd
    unfold DataBox.offsetWithinSuperbox
    rw [hd]
    split
    next sa sbytes da dbytes hs hd' => exact absurd hd' (by simp)
    next => rfl
  · intro off len hs
    unfold DataBox.offsetWithinSuperbox
    rw [hs]

def c9SuperBox : SuperBox :=
  SuperBox.mk (c5Desc none true) [] (.borrowed 100 (List.replicate 10 0))

def c9DataBox : DataBox :=
  ⟨⟨[0x75, 0x75, 0x69, 0x64]⟩, .borrowed 104 [1, 2],
    .borrowed 96 (List.replicate 10 0)⟩

theorem claim9_offset_within_superbox_witness :
    c9DataBox.offsetWithinSuperbox c9SuperBox = some 4 ∧
    (∃ sboxAddr sboxBytes dataAddr dataBytes,
      c9SuperBox.original = .borrowed sboxAddr sboxBytes ∧
      c9DataBox.data = .borrowed dataAddr dataBytes ∧
      sboxAddr ≤ dataAddr ∧
      dataAddr + dataBytes.length ≤ sboxAddr + sboxBytes.length ∧
      4 = dataAddr - sboxAddr) :=
  ⟨rfl, ((claim9_offset_within_superbox c9DataBox c9SuperBox).1 4).mp rfl⟩

/-! ### Builder side -/

/-- A writable+seekable sink: `Cursor<Vec<u8>>`-like state. -/
structure Sink where
  data : List Nat
  pos : Nat
deriving DecidableEq, Repr

/-- `write_all` on a cursor: overwrite bytes at the current position
(zero-filling any gap when positioned past the end) and advance. -/
def Sink.writeAll (s : Sink) (bytes : List Nat) : Sink :=
  ⟨s.data.take s.pos ++ List.replicate (s.pos - s.data.length) 0 ++ bytes ++
     s.data.drop (s.pos + bytes.length), s.pos + bytes.length⟩

/-- The builder-side `std::io::Error` values, abstracted to their distinct
causes (the source carries formatted message strings):
`payloadTooLarge` = "replace_payload: payload (…) is larger than reserved
capacity (…)", `noOffsetRecorded` = "replace_payload: no offset recorded;
call write_jumbf() first", `zeroStreamPosition` = "placeholder stream
should have some data already". -/
inductive BuilderErr where
  | payloadTooLarge
  | noOffsetRecorded
  | zeroStreamPosition
deriving DecidableEq, Repr

/-- `DataBoxBuilder` (src/builder/data_box_builder.rs): a box type plus a
byte payload (borrowed or owned — a byte list here either way). -/
structure DataBoxBuilder where
  tbox : BoxType
  data : List Nat
deriving DecidableEq, Repr

/-- `ToBox::box_type` for `DataBoxBuilder`. -/
def DataBoxBuilder.boxType (b : DataBoxBuilder) : BoxType := b.tbox

/-- `ToBox::payload_size` for `DataBoxBuilder` (always `Ok`). -/
def DataBoxBuilder.payloadSize (b : DataBoxBuilder) : Nat := b.data.length

/-- `ToBox::write_payload` for `DataBoxBuilder`: write the buffer
verbatim. -/
def DataBoxBuilder.writePayload (b : DataBoxBuilder) (s : Sink) : Sink :=
  s.writeAll b.data

/-- Modelled from the spec: the top-level framing write (`write_jumbf` in
`builder/to_box.rs`, which is absent from the sources) for a
`DataBoxBuilder` — "compute total framed size from the capability's
reported payload size (header is 8 bytes: 4-byte length + 4-byte type
…), write the length and type fields, then invoke payload-write". -/
def writeJumbfData (b : DataBoxBuilder) (s : Sink) : Sink :=
  b.writePayload (s.writeAll (toBe32 (b.payloadSize + 8) ++ b.tbox.bytes))

/-- `PlaceholderDataBox` (src/builder/placeholder_data_box.rs): a box
type, a reserved byte count, and the mutable recorded stream offset. -/
structure PlaceholderDataBox where
  tbox : BoxType
  size : Nat
  offset : Option Nat
deriving DecidableEq, Repr

/-- `PlaceholderDataBox::new`: the offset starts unset. -/
def PlaceholderDataBox.new (tbox : BoxType) (size : Nat) :
    PlaceholderDataBox :=
  ⟨tbox, size, none⟩

/-- `ToBox::write_payload` for `PlaceholderDataBox`
(placeholder_data_box.rs lines 104–121): fail if the sink's position is
zero, otherwise record the current position and write `size` zero bytes.
The triple mirrors the in-place mutation: (outcome, box state, sink). -/
def PlaceholderDataBox.writePayload (p : PlaceholderDataBox) (s : Sink) :
    Except BuilderErr Unit × PlaceholderDataBox × Sink :=
  if s.pos = 0 then (.error .zeroStreamPosition, p, s)
  else (.ok (), { p with offset := some s.pos },
    s.writeAll (List.replicate p.size 0))

/-- `PlaceholderDataBox::replace_payload` (placeholder_data_box.rs lines
72–92): bounds check first, then require a recorded offset, then seek to
it and overwrite. -/
def PlaceholderDataBox.replacePayload (p : PlaceholderDataBox) (s : Sink)
    (payload : List Nat) : Except BuilderErr Unit × Sink :=
  if payload.length > p.size then (.error .payloadTooLarge, s)
  else
    match p.offset with
    | some off => (.ok (), Sink.writeAll ⟨s.data, off⟩ payload)
    | none => (.error .noOffsetRecorded, s)

/-- Modelled from the spec: the top-level framing write for a
`PlaceholderDataBox` (`write_jumbf` in `builder/to_box.rs`, absent from
the sources): write the 8-byte header, then invoke the placeholder's
payload write. -/
def writeJumbfPlaceholder (p : PlaceholderDataBox) (s : Sink) :
    Except BuilderErr Unit × PlaceholderDataBox × Sink :=
  p.writePayload (s.writeAll (toBe32 (p.size + 8) ++ p.tbox.bytes))

/-- Big-endian round trip for 32-bit values. -/
theorem be32_toBe32 (n : Nat) (h : n < 2 ^ 32) : be32 (toBe32 n) = n := by
  unfold be32 toBe32
  simp only [List.foldl_cons, List.foldl_nil]
  omega

/-- The bytes emitted by the framing write on an empty sink. -/
theorem writeJumbfData_empty (b : DataBoxBuilder)
    (ht : b.tbox.bytes.length = 4) :
    writeJumbfData b ⟨[], 0⟩ =
      ⟨toBe32 (b.data.length + 8) ++ b.tbox.bytes ++ b.data,
        8 + b.data.length⟩ := by
  have hhdr : (toBe32 (b.data.length + 8) ++ b.tbox.bytes).length = 8 := by
    simp [toBe32, ht]
  unfold writeJumbfData DataBoxBuilder.writePayload DataBoxBuilder.payloadSize
    Sink.writeAll
  simp only [List.take_nil, List.drop_nil, List.nil_append, List.append_nil,
    List.length_nil, Nat.sub_zero, Nat.sub_self, List.replicate_zero,
    Nat.zero_add, List.take_length]
  rw [List.drop_eq_nil_of_le (by omega), List.append_nil, List.append_assoc]
  rw [← List.append_assoc]
  have : (toBe32 (b.data.length + 8) ++ b.tbox.bytes).length + b.data.length =
      8 + b.data.length := by omega
  rw [this]

/-- **C6.** Framing a `DataBoxBuilder` with the top-level write-box
operation and re-parsing the emitted bytes with `DataBox::from_slice`
succeeds, yielding a box whose type tag equals the written type and whose
payload bytes equal the written payload, with empty remainder. -/
theorem claim6_writer_roundtrip (a : Nat) (b : DataBoxBuilder)
    (ht : b.tbox.bytes.length = 4) (hlen : b.data.length + 8 < 2 ^ 32) :
    (writeJumbfData b ⟨[], 0⟩).data =
      toBe32 (b.data.length + 8) ++ b.tbox.bytes ++ b.data ∧
    DataBox.fromSlice a (writeJumbfData b ⟨[], 0⟩).data =
      .ok (⟨b.tbox, .borrowed (a + 8) b.data,
            .borrowed a (toBe32 (b.data.length + 8) ++ b.tbox.bytes ++ b.data)⟩,
           []) := by
  have hdata : (writeJumbfData b ⟨[], 0⟩).data =
      toBe32 (b.data.length + 8) ++ b.tbox.bytes ++ b.data := by
    rw [writeJumbfData_empty b ht]
  refine ⟨hdata, ?_⟩
  rw [hdata]
  have hhdrlen : (toBe32 (b.data.length + 8) ++ b.tbox.bytes).length = 8 := by
    simp [toBe32, ht]
  have hElen : (toBe32 (b.data.length + 8) ++ b.tbox.bytes ++ b.data).length =
      b.data.length + 8 := by
    simp only [List.length_append]
    simp only [List.length_append] at hhdrlen
    omega
  have hL : be32 (((toBe32 (b.data.length + 8) ++ b.tbox.bytes ++
      b.data).drop 0).take 4) = b.data.length + 8 := by
    rw [List.drop_zero, List.append_assoc,
      List.take_left' (by simp [toBe32] : (toBe32 (b.data.length + 8)).length = 4)]
    exact be32_toBe32 _ hlen
  have htb : ((toBe32 (b.data.length + 8) ++ b.tbox.bytes ++
      b.data).drop (0 + 4)).take 4 = b.tbox.bytes := by
    rw [List.append_assoc,
      List.drop_left' (by simp [toBe32] : (toBe32 (b.data.length + 8)).length = 0 + 4),
      List.take_left' ht]
  have hsrc := fromSource_big ⟨toBe32 (b.data.length + 8) ++ b.tbox.bytes ++
      b.data, 0⟩ (by dsimp only; omega) (by dsimp only; rw [hL]; omega)
  dsimp only at hsrc
  rw [hL, htb] at hsrc
  unfold DataBox.fromSlice
  rw [hsrc]
  dsimp only
  rw [if_neg (by omega)]
  have hmk1 : mkBorrowed a (toBe32 (b.data.length + 8) ++ b.tbox.bytes ++ b.data)
      (0 + 4 + 4) (b.data.length + 8 - 8) = .borrowed (a + 8) b.data := by
    unfold mkBorrowed
    rw [if_pos (by omega)]
    have h8 : (0 + 4 + 4 : Nat) = 8 := by omega
    have hsub : b.data.length + 8 - 8 = b.data.length := by omega
    rw [h8, hsub, List.drop_left' hhdrlen, List.take_length]
  have hmk2 : mkBorrowed a (toBe32 (b.data.length + 8) ++ b.tbox.bytes ++ b.data)
      0 (b.data.length + 8) = .borrowed a
        (toBe32 (b.data.length + 8) ++ b.tbox.bytes ++ b.data) := by
    unfold mkBorrowed
    rw [if_pos (by omega)]
    simp only [Nat.add_zero, List.drop_zero]
    rw [List.take_of_length_le (by omega)]
  have hrem : (toBe32 (b.data.length + 8) ++ b.tbox.bytes ++
      b.data).drop (0 + (b.data.length + 8)) = [] := by
    rw [List.drop_eq_nil_of_le (by omega)]
  rw [hmk1, hmk2, hrem]

def c6Builder : DataBoxBuilder := ⟨⟨[0x75, 0x75, 0x69, 0x64]⟩, [1, 2, 3]⟩

theorem claim6_writer_roundtrip_witness :
    (writeJumbfData c6Builder ⟨[], 0⟩).data =
      toBe32 (c6Builder.data.length + 8) ++ c6Builder.tbox.bytes ++
        c6Builder.data ∧
    DataBox.fromSlice 5 (writeJumbfData c6Builder ⟨[], 0⟩).data =
      .ok (⟨c6Builder.tbox, .borrowed (5 + 8) c6Builder.data,
            .borrowed 5 (toBe32 (c6Builder.data.length + 8) ++
              c6Builder.tbox.bytes ++ c6Builder.data)⟩, []) :=
  claim6_writer_roundtrip 5 c6Builder (by decide) (by decide)

/-- **C7 counterexample.** The recorded offset is *not* left unchanged by
a later framing write: framing the same placeholder twice records offset
8 after the first write and overwrites it with 20 after the second. -/
theorem claim7_counterexample :
    ((writeJumbfPlaceholder (PlaceholderDataBox.new ⟨[97, 98, 99, 100]⟩ 4)
        ⟨[], 0⟩).2.1.offset = some 8) ∧
    ((writeJumbfPlaceholder
        (writeJumbfPlaceholder (PlaceholderDataBox.new ⟨[97, 98, 99, 100]⟩ 4)
          ⟨[], 0⟩).2.1
        (writeJumbfPlaceholder (PlaceholderDataBox.new ⟨[97, 98, 99, 100]⟩ 4)
          ⟨[], 0⟩).2.2).1 = .ok ()) ∧
    ((writeJumbfPlaceholder
        (writeJumbfPlaceholder (PlaceholderDataBox.new ⟨[97, 98, 99, 100]⟩ 4)
          ⟨[], 0⟩).2.1
        (writeJumbfPlaceholder (PlaceholderDataBox.new ⟨[97, 98, 99, 100]⟩ 4)
          ⟨[], 0⟩).2.2).2.1.offset = some 20) ∧
    ¬((some 20 : Option Nat) = some 8) := by
  decide

/-- **C7 (amended).** The recorded stream offset starts unset and is set,
from unset to set, by the first framing write; each successful framing
write records the sink position just past the freshly written 8-byte
header (so a later framing write overwrites the offset with the new
position rather than leaving it unchanged); and a `write_payload`
invocation that finds the sink's position equal to zero fails without
recording an offset or writing the zero bytes. -/
theorem claim7_placeholder_offset (t : BoxType) (n : Nat) :
    (PlaceholderDataBox.new t n).offset = none ∧
    (∀ p : PlaceholderDataBox, ∀ s : Sink, s.pos = 0 →
      p.writePayload s = (.error .zeroStreamPosition, p, s)) ∧
    (∀ p : PlaceholderDataBox, ∀ s : Sink, s.pos ≠ 0 →
      p.writePayload s = (.ok (), { p with offset := some s.pos },
        s.writeAll (List.replicate p.size 0))) ∧
    (∀ p : PlaceholderDataBox, ∀ s : Sink, p.tbox.bytes.length = 4 →
      (writeJumbfPlaceholder p s).1 = .ok () ∧
      (writeJumbfPlaceholder p s).2.1.offset = some (s.pos + 8)) := by
  refine ⟨rfl, ?_, ?_, ?_⟩
  · intro p s h
    unfold PlaceholderDataBox.writePayload
    rw [if_pos h]
  · intro p s h
    unfold PlaceholderDataBox.writePayload
    rw [if_neg h]
  · intro p s ht
    unfold writeJumbfPlaceholder PlaceholderDataBox.writePayload
    have hpos : (s.writeAll (toBe32 (p.size + 8) ++ p.tbox.bytes)).pos =
        s.pos + 8 := by
      unfold Sink.writeAll
      simp [toBe32, ht]
    rw [hpos]
    rw [if_neg (by omega)]
    exact ⟨rfl, rfl⟩

theorem claim7_placeholder_offset_witness :
    (PlaceholderDataBox.new ⟨[97, 98, 99, 100]⟩ 16).offset = none ∧
    ((PlaceholderDataBox.new ⟨[97, 98, 99, 100]⟩ 16).writePayload ⟨[], 0⟩ =
      (.error .zeroStreamPosition, PlaceholderDataBox.new ⟨[97, 98, 99, 100]⟩ 16,
        ⟨[], 0⟩)) ∧
    ((writeJumbfPlaceholder (PlaceholderDataBox.new ⟨[97, 98, 99, 100]⟩ 16)
        ⟨[], 0⟩).2.1.offset = some (0 + 8)) := by
  obtain ⟨h1, h2, h3, h4⟩ :=
    claim7_placeholder_offset ⟨[97, 98, 99, 100]⟩ 16
  exact ⟨h1, h2 _ _ rfl,
    (h4 (PlaceholderDataBox.new ⟨[97, 98, 99, 100]⟩ 16) ⟨[], 0⟩ (by decide)).2⟩

/-- **C8.** With framing written (a recorded offset whose reserved region
lies inside the sink), `replace_payload` with a payload no larger than the
reservation seeks to the recorded offset and overwrites exactly
payload-length bytes, leaving the sink's total length — and every byte
outside the overwritten range — unchanged; an oversized payload, or a
missing recorded offset, yields an error with the sink entirely
unmodified (the bounds check precedes any seek or write). -/
theorem claim8_replace_payload (p : PlaceholderDataBox) (s : Sink)
    (payload : List Nat) :
    (∀ off, p.offset = some off → off + p.size ≤ s.data.length →
      payload.length ≤ p.size →
      p.replacePayload s payload =
        (.ok (), ⟨s.data.take off ++ payload ++
          s.data.drop (off + payload.length), off + payload.length⟩) ∧
      (s.data.take off ++ payload ++
        s.data.drop (off + payload.length)).length = s.data.length) ∧
    (payload.length > p.size →
      p.replacePayload s payload = (.error .payloadTooLarge, s)) ∧
    (p.offset = none → payload.length ≤ p.size →
      p.replacePayload s payload = (.error .noOffsetRecorded, s)) := by
  refine ⟨?_, ?_, ?_⟩
  · intro off hoff hin hle
    constructor
    · unfold PlaceholderDataBox.replacePayload
      rw [if_neg (by omega), hoff]
      unfold Sink.writeAll
      simp only []
      rw [show (⟨s.data, off⟩ : Sink).pos - (⟨s.data, off⟩ : Sink).data.length
          = 0 from by dsimp only; omega]
      simp
    · simp only [List.length_append, List.length_take, List.length_drop]
      omega
  · intro hgt
    unfold PlaceholderDataBox.replacePayload
    rw [if_pos hgt]
  · intro hnone hle
    unfold PlaceholderDataBox.replacePayload
    rw [if_neg (by omega), hnone]

theorem claim8_replace_payload_witness :
    (PlaceholderDataBox.mk ⟨[97, 98, 99, 100]⟩ 16 (some 8)).replacePayload
        ⟨List.replicate 24 0, 24⟩ [1, 2, 3, 4, 5, 6, 7, 8, 9, 10] =
      (.ok (), ⟨(List.replicate 24 0).take 8 ++ [1, 2, 3, 4, 5, 6, 7, 8, 9, 10] ++
        (List.replicate 24 0).drop 18, 18⟩) ∧
    ((List.replicate 24 0).take 8 ++ [1, 2, 3, 4, 5, 6, 7, 8, 9, 10] ++
      (List.replicate 24 0).drop 18).length = (List.replicate 24 0).length ∧
    (PlaceholderDataBox.mk ⟨[97, 98, 99, 100]⟩ 16 (some 8)).replacePayload
        ⟨List.replicate 24 0, 24⟩ (List.replicate 17 1) =
      (.error .payloadTooLarge, ⟨List.replicate 24 0, 24⟩) ∧
    (PlaceholderDataBox.new ⟨[97, 98, 99, 100]⟩ 16).replacePayload ⟨[], 0⟩
        (List.replicate 16 1) =
      (.error .noOffsetRecorded, ⟨[], 0⟩) := by
  obtain ⟨h1, h2, h3⟩ := claim8_replace_payload
    (PlaceholderDataBox.mk ⟨[97, 98, 99, 100]⟩ 16 (some 8))
    ⟨List.replicate 24 0, 24⟩ [1, 2, 3, 4, 5, 6, 7, 8, 9, 10]
  obtain ⟨ha, hb⟩ := h1 8 rfl (by decide) (by decide)
  refine ⟨ha, hb, ?_, ?_⟩
  · exact (claim8_replace_payload _ _ _).2.1 (by decide)
  · exact (claim8_replace_payload _ _ _).2.2 rfl (by decide)
